import Mathlib

/-!
Verification of the multi-variant move generator (`src/movegen.cpp`).

The development shallowly embeds the move generator: `make_promotions`,
`generate_drops`, `generate_king_moves`, `generate_pawn_moves`,
`generate_moves`, `generate_all` and the four top-level `generate<Type>`
specializations are translated into Lean functions over a `Position`
structure that captures the position interface the generator consumes
(bitboards, attack queries, variant flags, the legality oracle).
Bitboards are natural numbers used as 64-bit sets; move lists are Lean
lists, compared as multisets where order is irrelevant.
-/

namespace Movegen

/-- Squares are integers in [0, 63], file-major (`sq = file + 8*rank`).
The value 64 stands for the sentinel `SQ_NONE`. -/
abbrev Square := Nat

/-- Bitboards are 64-bit sets of squares, represented as naturals; only
bits 0..63 are ever read. -/
abbrev Bitboard := Nat

/-- Side color. -/
inductive Color where
  | WHITE
  | BLACK
deriving DecidableEq, Repr

/-- Complement color, `~c` in the source. -/
def Color.opp : Color → Color
  | Color.WHITE => Color.BLACK
  | Color.BLACK => Color.WHITE

/-- Piece types, including the `ALL_PIECES` aggregate. -/
inductive PieceType where
  | PAWN
  | KNIGHT
  | BISHOP
  | ROOK
  | QUEEN
  | KING
  | ALL
deriving DecidableEq, Repr

/-- Variant tag carried by the position (`CHESS_VARIANT`, `ANTI_VARIANT`, ...).
Exactly one variant is active, as in the engine's `Variant` enum. -/
inductive Variant where
  | CHESS
  | ANTI
  | ATOMIC
  | CRAZYHOUSE
  | EXTINCTION
  | GRID
  | HORDE
  | LOSERS
  | RACE
  | TWOKINGS
deriving DecidableEq, Repr

/-- Generation modes (`GenType` in the source). -/
inductive GenType where
  | CAPTURES
  | QUIETS
  | QUIET_CHECKS
  | EVASIONS
  | NON_EVASIONS
  | LEGAL
deriving DecidableEq, Repr

/-- Moves, distinguishing the five kinds of the engine's `Move` encoding:
`NORMAL`, `PROMOTION` (with the promotion piece type), `ENPASSANT`,
`CASTLING` (to = rook square) and `DROP` (with the dropped piece). -/
inductive Move where
  | normal (fromSq toSq : Square)
  | promotion (fromSq toSq : Square) (pt : PieceType)
  | enpassant (fromSq toSq : Square)
  | castling (fromSq toSq : Square)
  | drop (toSq : Square) (c : Color) (pt : PieceType)
deriving DecidableEq, Repr

/-- Origin square of a move; `from_sq(m)` in the source. Drops carry no
origin (the engine packs the dropped piece into the from bits); we return
the sentinel 64, which is sound because the `LEGAL` filter exempts drops
before looking at the origin. -/
def Move.srcSq : Move → Square
  | Move.normal f _ => f
  | Move.promotion f _ _ => f
  | Move.enpassant f _ => f
  | Move.castling f _ => f
  | Move.drop _ _ _ => 64

/-- Destination square of a move; `to_sq(m)` in the source (for castling
this is the rook square, by the engine's convention). -/
def Move.dest : Move → Square
  | Move.normal _ t => t
  | Move.promotion _ t _ => t
  | Move.enpassant _ t => t
  | Move.castling _ t => t
  | Move.drop t _ _ => t

/-- Recognizer for `type_of(m) == ENPASSANT`. -/
def Move.isEnpassant : Move → Bool
  | Move.enpassant _ _ => true
  | _ => false

/-- Recognizer for `type_of(m) == DROP`. -/
def Move.isDrop : Move → Bool
  | Move.drop _ _ _ => true
  | _ => false

/-- Recognizer for knight promotions (used to state the amended
`QUIET_CHECKS` non-capture property). -/
def Move.isKnightPromotion : Move → Bool
  | Move.promotion _ _ PieceType.KNIGHT => true
  | _ => false

/-- Mask of the 64 board bits. -/
def FullBB : Bitboard := 2 ^ 64 - 1

/-- Bitwise complement within the 64 board bits (`~b` on a 64-bit word). -/
def bcompl (b : Bitboard) : Bitboard := FullBB ^^^ (b &&& FullBB)

/-- Singleton bitboard of a square (`square_bb`). -/
def bitSq (s : Square) : Bitboard := 1 <<< s

/-- List of the squares of a bitboard in ascending order, matching the
`pop_lsb` emission order of the source loops. -/
def sqList (b : Bitboard) : List Square :=
  (List.range 64).filter (fun s => b.testBit s)

/-- Bitboard of a list of squares. -/
def bbOf (l : List Square) : Bitboard :=
  l.foldl (fun a s => a ||| bitSq s) 0

/-- Test `more_than_one(b)`: `b & (b - 1)` is nonzero. -/
def moreThanOne (b : Bitboard) : Bool := b &&& (b - 1) != 0

/-- Least set square of a bitboard (`lsb`); the source only evaluates it
on nonzero bitboards, where this is the least set bit below 64. -/
def lsbSq (b : Bitboard) : Square := (sqList b).headD 0

/-- File index of a square. -/
def fileOf (s : Square) : Nat := s % 8

/-- Rank index of a square. -/
def rankOf (s : Square) : Nat := s / 8

/-- Modelled from the spec: `relative_rank(c, r)` of §3 (bitboards.h is not
part of the sources); rank `r` seen from color `c`. -/
def relativeRank (c : Color) (r : Nat) : Nat :=
  if c = Color.WHITE then r else 7 - r

/-- Modelled from the spec: absolute rank bitboard (bitboards.h is not part
of the sources). `rankBB r` holds the 8 squares of rank `r`. -/
def rankBB (r : Nat) : Bitboard := (0xFF : Nat) <<< (8 * r)

def Rank1BB : Bitboard := rankBB 0
def Rank2BB : Bitboard := rankBB 1
def Rank3BB : Bitboard := rankBB 2
def Rank6BB : Bitboard := rankBB 5
def Rank7BB : Bitboard := rankBB 6
def Rank8BB : Bitboard := rankBB 7

/-- Modelled from the spec: file bitboards (bitboards.h is not part of the
sources). -/
def FileABB : Bitboard := 0x0101010101010101

def FileHBB : Bitboard := FileABB <<< 7

/-- Modelled from the spec: `file_bb(s)`, the file bitboard through `s`. -/
def fileBBOf (s : Square) : Bitboard := FileABB <<< (s % 8)

/-- Modelled from the spec: the `DarkSquares` constant bitboard used by the
crazyhouse placement bishop-parity rule. -/
def DarkSquares : Bitboard := 0xAA55AA55AA55AA55

/-- Modelled from the spec: `pawn_push(c)` of §3, the pawn push direction
(`NORTH = +8` for white, `SOUTH = -8` for black). -/
def pawnPush (c : Color) : Int := if c = Color.WHITE then 8 else -8

/-- Modelled from the spec: `shift<D>(b)` of §3 translates a bitboard by a
direction, masking squares that would wrap around a board edge
(bitboards.h is not part of the sources). The input is masked to 64 bits
as the engine's `Bitboard` is a 64-bit word. -/
def shiftBB (d : Int) (b : Bitboard) : Bitboard :=
  let b := b &&& FullBB
  if d = 8 then (b <<< 8) &&& FullBB
  else if d = -8 then b >>> 8
  else if d = 9 then ((b &&& bcompl FileHBB) <<< 9) &&& FullBB
  else if d = -7 then (b &&& bcompl FileHBB) >>> 7
  else if d = 7 then ((b &&& bcompl FileABB) <<< 7) &&& FullBB
  else if d = -9 then (b &&& bcompl FileABB) >>> 9
  else 0

/-- Square at integer coordinates, if on the board. -/
def sqAt (f r : Int) : Option Square :=
  if 0 ≤ f ∧ f < 8 ∧ 0 ≤ r ∧ r < 8 then some (f.toNat + 8 * r.toNat) else none

/-- Whether two squares are a king step apart. -/
def isKingStep (s t : Square) : Bool :=
  let df : Int := (fileOf s : Int) - (fileOf t : Int)
  let dr : Int := (rankOf s : Int) - (rankOf t : Int)
  s ≠ t && df.natAbs ≤ 1 && dr.natAbs ≤ 1

/-- Whether two squares are a knight jump apart. -/
def isKnightStep (s t : Square) : Bool :=
  let df := ((fileOf s : Int) - (fileOf t : Int)).natAbs
  let dr := ((rankOf s : Int) - (rankOf t : Int)).natAbs
  (df = 1 && dr = 2) || (df = 2 && dr = 1)

/-- Modelled from the spec: king attack table (`PseudoAttacks[KING]`,
bitboards.cpp is not part of the sources). -/
def kingAttacksBB (s : Square) : Bitboard :=
  bbOf ((List.range 64).filter (fun t => isKingStep s t))

/-- Modelled from the spec: knight attack table (`PseudoAttacks[KNIGHT]`). -/
def knightAttacksBB (s : Square) : Bitboard :=
  bbOf ((List.range 64).filter (fun t => isKnightStep s t))

/-- Modelled from the spec: pawn attack set from `s` for a pawn of color
`c` (`pawn_attacks_bb` / `attacks_from<PAWN>(s, c)`). -/
def pawnAttacksBB (c : Color) (s : Square) : Bitboard :=
  if c = Color.WHITE then shiftBB 9 (bitSq s) ||| shiftBB 7 (bitSq s)
  else shiftBB (-9) (bitSq s) ||| shiftBB (-7) (bitSq s)

/-- Walk from `s` in direction `(df, dr)` collecting squares until the edge
of the board or (inclusively) the first occupied square of `occ`. -/
def rayWalk (occ : Bitboard) (df dr : Int) : Nat → Int → Int → List Square
  | 0, _, _ => []
  | Nat.succ fuel, f, r =>
      match sqAt (f + df) (r + dr) with
      | none => []
      | some t =>
          if occ.testBit t then [t]
          else t :: rayWalk occ df dr fuel (f + df) (r + dr)

/-- Slider ray attack from `s` in direction `(df, dr)` with occupancy `occ`. -/
def rayAttack (occ : Bitboard) (s : Square) (df dr : Int) : Bitboard :=
  bbOf (rayWalk occ df dr 7 (fileOf s : Int) (rankOf s : Int))

/-- Modelled from the spec: bishop attacks with occupancy (`attacks_bb`). -/
def bishopAttacksBB (occ : Bitboard) (s : Square) : Bitboard :=
  rayAttack occ s 1 1 ||| rayAttack occ s 1 (-1) |||
  rayAttack occ s (-1) 1 ||| rayAttack occ s (-1) (-1)

/-- Modelled from the spec: rook attacks with occupancy (`attacks_bb`). -/
def rookAttacksBB (occ : Bitboard) (s : Square) : Bitboard :=
  rayAttack occ s 1 0 ||| rayAttack occ s (-1) 0 |||
  rayAttack occ s 0 1 ||| rayAttack occ s 0 (-1)

/-- Modelled from the spec: attacks of a piece type from `s` with the given
occupancy (`attacks_from` resolved against the attack oracle of §2). Pawns
are handled separately (`pawnAttacksBB`), so `PAWN` and `ALL` yield 0. -/
def attacksOn (occ : Bitboard) (pt : PieceType) (s : Square) : Bitboard :=
  match pt with
  | PieceType.KNIGHT => knightAttacksBB s
  | PieceType.KING => kingAttacksBB s
  | PieceType.BISHOP => bishopAttacksBB occ s
  | PieceType.ROOK => rookAttacksBB occ s
  | PieceType.QUEEN => bishopAttacksBB occ s ||| rookAttacksBB occ s
  | _ => 0

/-- Modelled from the spec: empty-board pseudo attacks
(`PseudoAttacks[Pt][s]`, §2 attack oracle). -/
def PseudoAttacks (pt : PieceType) (s : Square) : Bitboard :=
  attacksOn 0 pt s

/-- Whether square `t` lies on the (rook or bishop) line through the two
distinct aligned squares `a` and `b`. -/
def onLine (a b t : Square) : Bool :=
  let fa : Int := fileOf a
  let ra : Int := rankOf a
  let fb : Int := fileOf b
  let rb : Int := rankOf b
  let ft : Int := fileOf t
  let rt : Int := rankOf t
  if ra = rb then rt = ra
  else if fa = fb then ft = fa
  else if fa - ra = fb - rb then ft - rt = fa - ra
  else if fa + ra = fb + rb then ft + rt = fa + ra
  else false

/-- Whether two distinct squares share a rook or bishop line. -/
def aligned (a b : Square) : Bool :=
  a ≠ b &&
  (rankOf a = rankOf b || fileOf a = fileOf b ||
   ((fileOf a : Int) - (rankOf a : Int) = (fileOf b : Int) - (rankOf b : Int)) ||
   ((fileOf a : Int) + (rankOf a : Int) = (fileOf b : Int) + (rankOf b : Int)))

/-- Modelled from the spec: `LineBB[a][b]` of §2, the full line through two
aligned squares (both endpoints included), 0 when not aligned. -/
def LineBB (a b : Square) : Bitboard :=
  if aligned a b then bbOf ((List.range 64).filter (fun t => onLine a b t)) else 0

/-- Unit step from `a` toward `b` in file and rank coordinates. -/
def stepToward (a b : Square) : Int × Int :=
  (Int.sign ((fileOf b : Int) - (fileOf a : Int)),
   Int.sign ((rankOf b : Int) - (rankOf a : Int)))

/-- Squares strictly between `a` and `b` along their common line. -/
def betweenList (a b : Square) (fuel : Nat) (f r : Int) : List Square :=
  match fuel with
  | 0 => []
  | Nat.succ fuel =>
      match sqAt f r with
      | none => []
      | some t => if t = b then [] else t :: betweenList a b fuel (f + (stepToward a b).1) (r + (stepToward a b).2)

/-- Modelled from the spec: `between_bb(a, b)` of §2, the squares strictly
between two aligned squares; 0 when not aligned. -/
def betweenBB (a b : Square) : Bitboard :=
  if aligned a b then
    bbOf (betweenList a b 7 ((fileOf a : Int) + (stepToward a b).1)
      ((rankOf a : Int) + (stepToward a b).2))
  else 0

/-- Modelled from the spec: `adjacent_squares_bb(b)` of §6, the union of the
king neighborhoods of the squares of `b` (variant geometry helper used by
the atomic rules; not part of the sources). -/
def adjacentSquaresBB (b : Bitboard) : Bitboard :=
  (sqList b).foldl (fun a s => a ||| kingAttacksBB s) 0

/-- Position interface consumed by the generator (§6 of the spec). The
generator never mutates the position; every query of movegen.cpp is a
field. Bitboard-valued fields are read only on bits 0..63. -/
structure Position where
  variant : Variant
  sideToMove : Color
  allPieces : Bitboard
  piecesC : Color → Bitboard
  piecesCP : Color → PieceType → Bitboard
  piecesT : PieceType → Bitboard
  attacksFrom : PieceType → Square → Bitboard
  attacksFromPawn : Square → Color → Bitboard
  epSquare : Option Square
  checkers : Bitboard
  blockersForKing : Color → Bitboard
  checkSquares : PieceType → Bitboard
  kingSquare : Color → Square
  pieceOn : Square → PieceType
  canCastleOO : Color → Bool
  canCastleOOO : Color → Bool
  castlingImpededOO : Color → Bool
  castlingImpededOOO : Color → Bool
  castlingRookSquareOO : Color → Square
  castlingRookSquareOOO : Color → Square
  castlingKingSquare : Color → Square
  legal : Move → Bool
  capture : Move → Bool
  isVariantEnd : Bool
  isHordeColor : Color → Bool
  isPlacement : Bool
  isGiveaway : Bool
  canCapture : Bool
  canCaptureLosers : Bool
  countInHand : Color → PieceType → Nat
  countInHandAll : Color → Nat
  gridBB : Square → Bitboard
  passedPawnSpan : Color → Square → Bitboard

/-- Embedding of `make_promotions<V, Type, D>` (movegen.cpp lines 28-83).
`d` is the direction the pawn moved, `toSq` the promotion square, `ksq`
the enemy king square (64 for `SQ_NONE` under HORDE). -/
def make_promotions (v : Variant) (t : GenType) (d : Int) (toSq : Square) (ksq : Square) :
    List Move :=
  let f : Square := ((toSq : Int) - d).toNat
  if v = Variant.ANTI then
    if t = GenType.QUIETS ∨ t = GenType.CAPTURES ∨ t = GenType.NON_EVASIONS then
      [Move.promotion f toSq PieceType.QUEEN, Move.promotion f toSq PieceType.ROOK,
       Move.promotion f toSq PieceType.BISHOP, Move.promotion f toSq PieceType.KNIGHT,
       Move.promotion f toSq PieceType.KING]
    else []
  else if v = Variant.LOSERS then
    if t = GenType.QUIETS ∨ t = GenType.CAPTURES ∨ t = GenType.EVASIONS ∨
        t = GenType.NON_EVASIONS then
      [Move.promotion f toSq PieceType.QUEEN, Move.promotion f toSq PieceType.ROOK,
       Move.promotion f toSq PieceType.BISHOP, Move.promotion f toSq PieceType.KNIGHT]
    else []
  else
    (if t = GenType.CAPTURES ∨ t = GenType.EVASIONS ∨ t = GenType.NON_EVASIONS then
      [Move.promotion f toSq PieceType.QUEEN] else [])
    ++ (if t = GenType.QUIETS ∨ t = GenType.EVASIONS ∨ t = GenType.NON_EVASIONS then
      [Move.promotion f toSq PieceType.ROOK, Move.promotion f toSq PieceType.BISHOP,
       Move.promotion f toSq PieceType.KNIGHT]
      ++ (if v = Variant.EXTINCTION then [Move.promotion f toSq PieceType.KING] else [])
      else [])
    ++ (if v = Variant.HORDE ∧ ksq = 64 then []
        else if t = GenType.QUIET_CHECKS ∧ (PseudoAttacks PieceType.KNIGHT toSq).testBit ksq then
          [Move.promotion f toSq PieceType.KNIGHT]
        else [])

/-- Embedding of `generate_drops<Us, Pt, Checks>` (movegen.cpp lines 86-117). -/
def generate_drops (pos : Position) (us : Color) (pt : PieceType) (checks : Bool)
    (b : Bitboard) : List Move :=
  if pos.countInHand us pt > 0 then
    let b :=
      if pos.isPlacement ∧ pos.countInHand us PieceType.BISHOP > 0 then
        if pt = PieceType.BISHOP then
          let b := if pos.piecesCP us PieceType.BISHOP &&& DarkSquares ≠ 0 then
            b &&& bcompl DarkSquares else b
          if pos.piecesCP us PieceType.BISHOP &&& bcompl DarkSquares ≠ 0 then
            b &&& DarkSquares else b
        else
          let b := if pos.piecesCP us PieceType.BISHOP &&& DarkSquares = 0 ∧
              (sqList (b &&& DarkSquares)).length ≤ 1 then b &&& bcompl DarkSquares else b
          if pos.piecesCP us PieceType.BISHOP &&& bcompl DarkSquares = 0 ∧
              (sqList (b &&& bcompl DarkSquares)).length ≤ 1 then b &&& DarkSquares else b
      else b
    let b := if checks then b &&& pos.checkSquares pt else b
    (sqList b).map (fun s => Move.drop s us pt)
  else []

/-- Embedding of `generate_king_moves<V, Us, Type>` (movegen.cpp lines
119-132): moves of every king of `us` into `target`. -/
def generate_king_moves (pos : Position) (us : Color) (target : Bitboard) : List Move :=
  (sqList (pos.piecesCP us PieceType.KING)).flatMap (fun ksq =>
    (sqList (pos.attacksFrom PieceType.KING ksq &&& target)).map (fun s => Move.normal ksq s))

/-- Enemy king square as computed at the top of `generate_pawn_moves`
(movegen.cpp lines 147-153): `SQ_NONE` (64) when the enemy is the horde. -/
def pawnKsq (v : Variant) (us : Color) (pos : Position) : Square :=
  if v = Variant.HORDE ∧ pos.isHordeColor us.opp then 64 else pos.kingSquare us.opp

/-- The `enemies` bitboard of `generate_pawn_moves` (movegen.cpp lines
159-164), including the ATOMIC own-king-adjacency restriction. -/
def pawnEnemies (v : Variant) (us : Color) (t : GenType) (pos : Position)
    (target : Bitboard) : Bitboard :=
  let e :=
    if t = GenType.EVASIONS then pos.piecesC us.opp &&& target
    else if t = GenType.CAPTURES then target
    else pos.piecesC us.opp
  if v = Variant.ATOMIC then
    e &&& (if t = GenType.CAPTURES ∨ t = GenType.NON_EVASIONS then target
           else bcompl (adjacentSquaresBB (pos.piecesCP us PieceType.KING)))
  else e

/-- The `emptySquares` value assigned in the push block of
`generate_pawn_moves` (movegen.cpp lines 169-173), only meaningful when
the mode is not `CAPTURES`. -/
def pawnEmptyPush (v : Variant) (us : Color) (t : GenType) (pos : Position)
    (target : Bitboard) : Bitboard :=
  let e := if t = GenType.QUIETS ∨ t = GenType.QUIET_CHECKS then target
           else bcompl pos.allPieces
  if v = Variant.ANTI then e &&& target else e

/-- Push part of `generate_pawn_moves` (movegen.cpp lines 166-226): single
and double pawn pushes of the pawns not on the relative 7th rank,
including the quiet-check restriction and discovered-check additions (the
source's guarded `b1 |= dc1` is rendered as an unconditional or with a
bitboard that is 0 outside the guard, which yields the same value). -/
def gpmPushes (v : Variant) (us : Color) (t : GenType) (pos : Position)
    (target : Bitboard) : List Move :=
  if t = GenType.CAPTURES then []
  else
    let TRank2BB := if us = Color.WHITE then Rank2BB else Rank7BB
    let TRank3BB := if us = Color.WHITE then Rank3BB else Rank6BB
    let TRank7BB := if us = Color.WHITE then Rank7BB else Rank2BB
    let Up := pawnPush us
    let pawnsNotOn7 := pos.piecesCP us PieceType.PAWN &&& bcompl TRank7BB
    let ksq := pawnKsq v us pos
    let emptySquares := pawnEmptyPush v us t pos target
    let b1 := shiftBB Up pawnsNotOn7 &&& emptySquares
    let b2 :=
      if v = Variant.HORDE then shiftBB Up (b1 &&& (TRank2BB ||| TRank3BB)) &&& emptySquares
      else shiftBB Up (b1 &&& TRank3BB) &&& emptySquares
    let b1 := if v = Variant.LOSERS then b1 &&& target else b1
    let b2 := if v = Variant.LOSERS then b2 &&& target else b2
    let b1 := if t = GenType.EVASIONS then b1 &&& target else b1
    let b2 := if t = GenType.EVASIONS then b2 &&& target else b2
    let dcCandidateQuiets := pos.blockersForKing us.opp &&& pawnsNotOn7
    let dc1 := if t = GenType.QUIET_CHECKS ∧ dcCandidateQuiets ≠ 0 then
        shiftBB Up dcCandidateQuiets &&& emptySquares &&& bcompl (fileBBOf ksq) else 0
    let dc2 := if t = GenType.QUIET_CHECKS ∧ dcCandidateQuiets ≠ 0 then
        shiftBB Up (dc1 &&& TRank3BB) &&& emptySquares else 0
    let b1 := if t = GenType.QUIET_CHECKS then
        (b1 &&& pos.attacksFromPawn ksq us.opp) ||| dc1 else b1
    let b2 := if t = GenType.QUIET_CHECKS then
        (b2 &&& pos.attacksFromPawn ksq us.opp) ||| dc2 else b2
    (sqList b1).map (fun (s : Square) => Move.normal ((s : Int) - Up).toNat s)
    ++ (sqList b2).map (fun (s : Square) => Move.normal ((s : Int) - Up - Up).toNat s)

/-- The `emptySquares` value as seen by the promotion block of
`generate_pawn_moves` (movegen.cpp lines 231-250): reassigned for
`CAPTURES`, then narrowed by the ANTI / LOSERS / EVASIONS masks. -/
def pawnEmptyPromo (v : Variant) (us : Color) (t : GenType) (pos : Position)
    (target : Bitboard) : Bitboard :=
  let e :=
    if t = GenType.CAPTURES then
      if v = Variant.ATOMIC ∧ pos.checkers ≠ 0 then bcompl pos.allPieces &&& target
      else bcompl pos.allPieces
    else pawnEmptyPush v us t pos target
  let e := if v = Variant.ANTI then e &&& target else e
  let e := if v = Variant.LOSERS then e &&& target else e
  if t = GenType.EVASIONS then e &&& target else e

/-- Promotion part of `generate_pawn_moves` (movegen.cpp lines 228-264). -/
def gpmPromos (v : Variant) (us : Color) (t : GenType) (pos : Position)
    (target : Bitboard) : List Move :=
  let TRank7BB := if us = Color.WHITE then Rank7BB else Rank2BB
  let pawnsOn7 := pos.piecesCP us PieceType.PAWN &&& TRank7BB
  if pawnsOn7 ≠ 0 then
    let Up := pawnPush us
    let UpRight : Int := if us = Color.WHITE then 9 else -9
    let UpLeft : Int := if us = Color.WHITE then 7 else -7
    let ksq := pawnKsq v us pos
    let enemies := pawnEnemies v us t pos target
    let emptySquares := pawnEmptyPromo v us t pos target
    let b1 := shiftBB UpRight pawnsOn7 &&& enemies
    let b2 := shiftBB UpLeft pawnsOn7 &&& enemies
    let b3 := shiftBB Up pawnsOn7 &&& emptySquares
    (sqList b1).flatMap (fun s => make_promotions v t UpRight s ksq)
    ++ (sqList b2).flatMap (fun s => make_promotions v t UpLeft s ksq)
    ++ (sqList b3).flatMap (fun s => make_promotions v t Up s ksq)
  else []

/-- Capture and en-passant part of `generate_pawn_moves` (movegen.cpp lines
266-301), including the EVASIONS en-passant admissibility test. -/
def gpmCaps (v : Variant) (us : Color) (t : GenType) (pos : Position)
    (target : Bitboard) : List Move :=
  if t = GenType.CAPTURES ∨ t = GenType.EVASIONS ∨ t = GenType.NON_EVASIONS then
    let TRank7BB := if us = Color.WHITE then Rank7BB else Rank2BB
    let Up := pawnPush us
    let UpRight : Int := if us = Color.WHITE then 9 else -9
    let UpLeft : Int := if us = Color.WHITE then 7 else -7
    let pawnsNotOn7 := pos.piecesCP us PieceType.PAWN &&& bcompl TRank7BB
    let enemies := pawnEnemies v us t pos target
    let b1 := shiftBB UpRight pawnsNotOn7 &&& enemies
    let b2 := shiftBB UpLeft pawnsNotOn7 &&& enemies
    let caps :=
      (sqList b1).map (fun (s : Square) => Move.normal ((s : Int) - UpRight).toNat s)
      ++ (sqList b2).map (fun (s : Square) => Move.normal ((s : Int) - UpLeft).toNat s)
    match pos.epSquare with
    | none => caps
    | some ep =>
        if t = GenType.EVASIONS ∧ ¬ target.testBit ((ep : Int) - Up).toNat then caps
        else caps ++ (sqList (pawnsNotOn7 &&& pos.attacksFromPawn ep us.opp)).map
          (fun s => Move.enpassant s ep)
  else []

/-- Embedding of `generate_pawn_moves<V, Us, Type>` (movegen.cpp lines
134-304), split into its push, promotion and capture blocks. -/
def generate_pawn_moves (v : Variant) (us : Color) (t : GenType) (pos : Position)
    (target : Bitboard) : List Move :=
  gpmPushes v us t pos target ++ gpmPromos v us t pos target ++ gpmCaps v us t pos target

/-- Embedding of `generate_moves<V, Pt, Checks>` (movegen.cpp lines
307-337): knight, bishop, rook and queen moves into `target`, with the
quiet-check pruning when `checks` is set. -/
def generate_moves (pt : PieceType) (checks : Bool) (pos : Position) (us : Color)
    (target : Bitboard) : List Move :=
  (sqList (pos.piecesCP us pt)).flatMap (fun f =>
    if checks ∧ (pt = PieceType.BISHOP ∨ pt = PieceType.ROOK ∨ pt = PieceType.QUEEN) ∧
        PseudoAttacks pt f &&& target &&& pos.checkSquares pt = 0 then []
    else if checks ∧ (pos.blockersForKing us.opp).testBit f then []
    else
      let b := pos.attacksFrom pt f &&& target
      let b := if checks then b &&& pos.checkSquares pt else b
      (sqList b).map (fun s => Move.normal f s))

/-- Embedding of `generate_all<V, Us, Type>` (movegen.cpp lines 340-453):
pawn and piece emitters, crazyhouse drops, the variant-dependent king
section and castling. The HORDE early return drops the king and castling
sections; the ANTI mandatory-capture early return drops castling. -/
def generate_all (v : Variant) (us : Color) (t : GenType) (pos : Position)
    (target : Bitboard) : List Move :=
  let checks := t = GenType.QUIET_CHECKS
  let skipPieces := v = Variant.CRAZYHOUSE ∧ pos.isPlacement ∧ pos.countInHandAll us > 0
  let pieceMoves :=
    if skipPieces then []
    else
      generate_pawn_moves v us t pos target
      ++ generate_moves PieceType.KNIGHT checks pos us target
      ++ generate_moves PieceType.BISHOP checks pos us target
      ++ generate_moves PieceType.ROOK checks pos us target
      ++ generate_moves PieceType.QUEEN checks pos us target
  let drops :=
    if v = Variant.CRAZYHOUSE ∧ t ≠ GenType.CAPTURES ∧ pos.countInHandAll us > 0 then
      let b := if t = GenType.EVASIONS then target ^^^ pos.checkers
               else if t = GenType.NON_EVASIONS then target ^^^ pos.piecesC us.opp
               else target
      let b := if pos.isPlacement then
          b &&& (if us = Color.WHITE then Rank1BB else Rank8BB) else b
      generate_drops pos us PieceType.PAWN checks (b &&& bcompl (Rank1BB ||| Rank8BB))
      ++ generate_drops pos us PieceType.KNIGHT checks b
      ++ generate_drops pos us PieceType.BISHOP checks b
      ++ generate_drops pos us PieceType.ROOK checks b
      ++ generate_drops pos us PieceType.QUEEN checks b
      ++ (if pos.isPlacement then generate_drops pos us PieceType.KING checks b else [])
    else []
  let hordeReturn := v = Variant.HORDE ∧ pos.isHordeColor us
  let kingPart :=
    if hordeReturn then []
    else if v = Variant.ANTI then generate_king_moves pos us target
    else if v = Variant.EXTINCTION then generate_king_moves pos us target
    else if v = Variant.TWOKINGS then
      if t ≠ GenType.EVASIONS then generate_king_moves pos us target else []
    else if t ≠ GenType.QUIET_CHECKS ∧ t ≠ GenType.EVASIONS then
      let ksq := pos.kingSquare us
      let b := pos.attacksFrom PieceType.KING ksq &&& target
      let b := if v = Variant.RACE ∧ t = GenType.CAPTURES then
          b ||| (pos.attacksFrom PieceType.KING ksq &&&
                 pos.passedPawnSpan Color.WHITE ksq &&& bcompl pos.allPieces)
        else b
      let b := if v = Variant.RACE ∧ t = GenType.QUIETS then
          b &&& bcompl (pos.passedPawnSpan Color.WHITE ksq) else b
      (sqList b).map (fun s => Move.normal ksq s)
    else []
  let castles :=
    if hordeReturn ∨ (v = Variant.ANTI ∧ pos.canCapture) then []
    else if t ≠ GenType.QUIET_CHECKS ∧ t ≠ GenType.EVASIONS then
      let ksq :=
        if (v = Variant.ANTI ∧ pos.isGiveaway) ∨ v = Variant.EXTINCTION ∨
            v = Variant.TWOKINGS then pos.castlingKingSquare us
        else pos.kingSquare us
      if v = Variant.LOSERS ∧ pos.canCaptureLosers then []
      else if t ≠ GenType.CAPTURES ∧ (pos.canCastleOO us ∨ pos.canCastleOOO us) then
        (if ¬ pos.castlingImpededOO us ∧ pos.canCastleOO us then
          [Move.castling ksq (pos.castlingRookSquareOO us)] else [])
        ++ (if ¬ pos.castlingImpededOOO us ∧ pos.canCastleOOO us then
          [Move.castling ksq (pos.castlingRookSquareOOO us)] else [])
      else []
    else []
  pieceMoves ++ drops ++ kingPart ++ castles

/-- Embedding of `generate<Type>` for `Type` in `CAPTURES`, `QUIETS`,
`NON_EVASIONS` (movegen.cpp lines 464-535): the mode target, the ANTI /
ATOMIC / LOSERS target overlays, and the dispatch on the variant. -/
def generate_main (t : GenType) (pos : Position) : List Move :=
  let us := pos.sideToMove
  let target :=
    if t = GenType.CAPTURES then pos.piecesC us.opp
    else if t = GenType.QUIETS then bcompl pos.allPieces
    else if t = GenType.NON_EVASIONS then bcompl (pos.piecesC us)
    else 0
  match pos.variant with
  | Variant.ANTI =>
      generate_all Variant.ANTI us t pos
        (if pos.canCapture then target &&& pos.piecesC us.opp else target)
  | Variant.ATOMIC =>
      generate_all Variant.ATOMIC us t pos
        (if t = GenType.CAPTURES ∨ t = GenType.NON_EVASIONS then
          target &&& bcompl (pos.piecesC us.opp &&&
            adjacentSquaresBB (pos.piecesCP us PieceType.KING))
         else target)
  | Variant.LOSERS =>
      generate_all Variant.LOSERS us t pos
        (if pos.canCaptureLosers then target &&& pos.piecesC us.opp else target)
  | v => generate_all v us t pos target

/-- Embedding of `generate<QUIET_CHECKS>` (movegen.cpp lines 545-626):
variant early returns, the discovered-check piece loop, then
`generate_all` on the empty squares. -/
def generate_quiet_checks (pos : Position) : List Move :=
  let us := pos.sideToMove
  if pos.variant = Variant.ANTI ∨ pos.variant = Variant.EXTINCTION ∨
      (pos.variant = Variant.HORDE ∧ pos.isHordeColor us.opp) ∨
      (pos.variant = Variant.LOSERS ∧ pos.canCaptureLosers) ∨
      (pos.isPlacement ∧ pos.countInHand us.opp PieceType.KING > 0) ∨
      pos.variant = Variant.RACE then []
  else
    let dcMoves :=
      (sqList (pos.blockersForKing us.opp &&& pos.piecesC us)).flatMap (fun f =>
        let pt := pos.pieceOn f
        if pt = PieceType.PAWN then []
        else
          let b := pos.attacksFrom pt f &&& bcompl pos.allPieces
          let b := if pt = PieceType.KING then
              b &&& bcompl (PseudoAttacks PieceType.QUEEN (pos.kingSquare us.opp))
            else b
          (sqList b).map (fun s => Move.normal f s))
    dcMoves ++ generate_all pos.variant us GenType.QUIET_CHECKS pos (bcompl pos.allPieces)

/-- Embedding of `generate<EVASIONS>` (movegen.cpp lines 631-766): variant
early returns, the atomic capture pre-pass, king flights off the slider
rays, the double-check early return, and `generate_all` on the
block-or-capture target. -/
def generate_evasions (pos : Position) : List Move :=
  let us := pos.sideToMove
  if pos.variant = Variant.ANTI ∨ pos.variant = Variant.EXTINCTION ∨
      (pos.isPlacement ∧ pos.countInHand us PieceType.KING > 0) ∨
      pos.variant = Variant.RACE then []
  else
    let ksq := pos.kingSquare us
    let sliders := pos.checkers &&&
      bcompl (pos.piecesT PieceType.KNIGHT ||| pos.piecesT PieceType.PAWN)
    let kingRing := if pos.variant = Variant.ATOMIC then
        adjacentSquaresBB (pos.piecesCP us.opp PieceType.KING) else 0
    let atomicPre :=
      if pos.variant = Variant.ATOMIC then
        let tgt := pos.piecesC us.opp &&& (pos.checkers ||| adjacentSquaresBB pos.checkers)
        let tgt := tgt ||| kingRing
        let tgt := tgt &&& (pos.piecesC us.opp &&&
          bcompl (adjacentSquaresBB (pos.piecesCP us PieceType.KING)))
        generate_all Variant.ATOMIC us GenType.CAPTURES pos tgt
      else []
    let sliderAttacks := (sqList sliders).foldl (fun acc checksq =>
        if pos.variant = Variant.GRID then
          acc ||| ((LineBB checksq ksq ^^^ bitSq checksq) &&& bcompl (pos.gridBB checksq))
        else acc ||| (LineBB checksq ksq ^^^ bitSq checksq)) 0
    let b :=
      if pos.variant = Variant.ATOMIC then
        pos.attacksFrom PieceType.KING ksq &&& bcompl pos.allPieces &&&
          bcompl (sliderAttacks &&& bcompl kingRing)
      else pos.attacksFrom PieceType.KING ksq &&& bcompl (pos.piecesC us) &&&
        bcompl sliderAttacks
    let b := if pos.variant = Variant.LOSERS ∧ pos.canCaptureLosers then
        b &&& pos.piecesC us.opp else b
    let kingMoves :=
      if pos.variant = Variant.TWOKINGS then
        (sqList (pos.piecesCP us PieceType.KING)).flatMap (fun k2 =>
          (sqList (pos.attacksFrom PieceType.KING k2 &&& bcompl (pos.piecesC us))).map
            (fun s => Move.normal k2 s))
      else (sqList b).map (fun s => Move.normal ksq s)
    if moreThanOne pos.checkers then atomicPre ++ kingMoves
    else
      let checksq := lsbSq pos.checkers
      let target :=
        if pos.variant = Variant.ATOMIC then betweenBB checksq ksq
        else betweenBB checksq ksq ||| bitSq checksq
      let target := if pos.variant = Variant.LOSERS ∧ pos.canCaptureLosers then
          target &&& pos.piecesC us.opp else target
      atomicPre ++ kingMoves ++ generate_all pos.variant us GenType.EVASIONS pos target

/-- The `validate` flag of `generate<LEGAL>` (movegen.cpp lines 779-788):
a pinned own piece exists, or the variant is GRID, RACE or TWOKINGS. -/
def legalValidate (pos : Position) : Bool :=
  pos.blockersForKing pos.sideToMove &&& pos.piecesC pos.sideToMove ≠ 0 ∨
  pos.variant = Variant.GRID ∨ pos.variant = Variant.RACE ∨
  pos.variant = Variant.TWOKINGS

/-- The king square consulted by the `generate<LEGAL>` filter (movegen.cpp
lines 789-795); `SQ_NONE` (64) for the horde side. -/
def legalKsq (pos : Position) : Square :=
  if pos.variant = Variant.HORDE ∧ pos.isHordeColor pos.sideToMove then 64
  else pos.kingSquare pos.sideToMove

/-- The removal condition of the `generate<LEGAL>` filtering loop
(movegen.cpp lines 799-811): `legalKeep` is true when the move survives. -/
def legalKeep (pos : Position) (validate : Bool) (ksq : Square) (m : Move) : Bool :=
  if (validate ∨ m.srcSq = ksq ∨ m.isEnpassant) ∧
      ¬ (pos.variant = Variant.CRAZYHOUSE ∧ m.isDrop) ∧ ¬ pos.legal m then false
  else if pos.variant = Variant.ATOMIC ∧ pos.capture m ∧ ¬ pos.legal m then false
  else true

/-- In-place filtering loop of `generate<LEGAL>`: a rejected move is
overwritten by the last move of the remaining region and the region
shrinks by one (`*cur = (--moveList)->move`); an accepted move is kept and
the cursor advances. -/
def filterLoop (keep : Move → Bool) : List Move → List Move
  | [] => []
  | m :: t =>
      if keep m then m :: filterLoop keep t
      else
        match h : t.reverse with
        | [] => []
        | lastM :: revInit => filterLoop keep (lastM :: revInit.reverse)
termination_by l => l.length
decreasing_by
  · simp only [List.length_cons]; omega
  · have ht : t.length = (lastM :: revInit).length := by rw [← h, List.length_reverse]
    simp only [List.length_cons, List.length_reverse] at ht ⊢
    omega

/-- Embedding of `generate<LEGAL>` (movegen.cpp lines 771-814). -/
def generate_legal (pos : Position) : List Move :=
  if pos.isVariantEnd then []
  else
    let base := if pos.checkers ≠ 0 then generate_evasions pos
      else generate_main GenType.NON_EVASIONS pos
    filterLoop (legalKeep pos (legalValidate pos) (legalKsq pos)) base

/-- Recognizer for `type_of(m) == CASTLING`. -/
def Move.isCastling : Move → Bool
  | Move.castling _ _ => true
  | _ => false

/-- Piece (color and type) on a square of a board description. -/
def pieceAtL (board : List (Square × Color × PieceType)) (s : Square) :
    Option (Color × PieceType) :=
  (board.find? (fun e => e.1 = s)).map (fun e => e.2)

/-- Attack set of the piece sitting at `a` on the given board. -/
def attackSetAt (board : List (Square × Color × PieceType)) (occ : Bitboard)
    (a : Square) : Bitboard :=
  match pieceAtL board a with
  | some (c, PieceType.PAWN) => pawnAttacksBB c a
  | some (_, pt) => attacksOn occ pt a
  | none => 0

/-- Modelled from the spec: `attackers_to` of the position interface,
restricted to color `c` (position.cpp is not part of the sources); used to
compute `checkers()` of a concrete position the way the engine does. -/
def attackersToBB (board : List (Square × Color × PieceType)) (occ : Bitboard)
    (c : Color) (s : Square) : Bitboard :=
  bbOf (((board.filter (fun e => e.2.1 = c)).map (fun e => e.1)).filter
    (fun a => (attackSetAt board occ a).testBit s))

/-- Modelled from the spec: `blockers_for_king(c)` (§6, glossary: pieces
that, if moved, would expose `c`'s king to a slider; position.cpp is not
part of the sources). Computed as the engine does: for every enemy sniper
aligned with the king on an empty board, the single piece standing
between, of either color, is a blocker. -/
def sliderBlockersBB (board : List (Square × Color × PieceType)) (occ : Bitboard)
    (c : Color) (ksq : Square) : Bitboard :=
  let snipers := (board.filter (fun e =>
    e.2.1 = c.opp ∧
    ((e.2.2 = PieceType.ROOK ∨ e.2.2 = PieceType.QUEEN) ∧
      (PseudoAttacks PieceType.ROOK ksq).testBit e.1 ∨
     (e.2.2 = PieceType.BISHOP ∨ e.2.2 = PieceType.QUEEN) ∧
      (PseudoAttacks PieceType.BISHOP ksq).testBit e.1))).map (fun e => e.1)
  snipers.foldl (fun acc sn =>
    let bb := betweenBB ksq sn &&& occ
    if bb ≠ 0 ∧ ¬ moreThanOne bb then acc ||| bb else acc) 0

/-- Builds a concrete `Position` from a variant, side to move, a list of
placed pieces and an en-passant square. The derived queries (attacks,
checkers, blockers, check squares) are computed from genuine chess
geometry with the board's occupancy; castling rights and hands are empty;
the legality oracle accepts everything (it is opaque to the generator). -/
def mkPos (v : Variant) (stm : Color) (board : List (Square × Color × PieceType))
    (ep : Option Square) : Position :=
  let occ := bbOf (board.map (fun e => e.1))
  let cpbb := fun (c : Color) (pt : PieceType) =>
    bbOf ((board.filter (fun e => e.2.1 = c ∧ e.2.2 = pt)).map (fun e => e.1))
  let cbb := fun (c : Color) => bbOf ((board.filter (fun e => e.2.1 = c)).map (fun e => e.1))
  let tbb := fun (pt : PieceType) =>
    bbOf ((board.filter (fun e => e.2.2 = pt)).map (fun e => e.1))
  let ksqOf := fun (c : Color) => (sqList (cpbb c PieceType.KING)).headD 64
  { variant := v
    sideToMove := stm
    allPieces := occ
    piecesC := cbb
    piecesCP := cpbb
    piecesT := tbb
    attacksFrom := fun pt s => attacksOn occ pt s
    attacksFromPawn := fun s c => pawnAttacksBB c s
    epSquare := ep
    checkers := attackersToBB board occ stm.opp (ksqOf stm)
    blockersForKing := fun c => sliderBlockersBB board occ c (ksqOf c)
    checkSquares := fun pt =>
      match pt with
      | PieceType.PAWN => pawnAttacksBB stm.opp (ksqOf stm.opp)
      | PieceType.KING => 0
      | PieceType.ALL => 0
      | pt => attacksOn occ pt (ksqOf stm.opp)
    kingSquare := ksqOf
    pieceOn := fun s => match pieceAtL board s with
      | some (_, pt) => pt
      | none => PieceType.PAWN
    canCastleOO := fun _ => false
    canCastleOOO := fun _ => false
    castlingImpededOO := fun _ => false
    castlingImpededOOO := fun _ => false
    castlingRookSquareOO := fun _ => 64
    castlingRookSquareOOO := fun _ => 64
    castlingKingSquare := ksqOf
    legal := fun _ => true
    capture := fun m => (occ.testBit m.dest && ! m.isCastling && ! m.isDrop) || m.isEnpassant
    isVariantEnd := false
    isHordeColor := fun _ => false
    isPlacement := false
    isGiveaway := false
    canCapture := false
    canCaptureLosers := false
    countInHand := fun _ _ => 0
    countInHandAll := fun _ => 0
    gridBB := fun _ => 0
    passedPawnSpan := fun _ _ => 0 }

/-- Concrete position of the spec scenario `4k3/P7/8/8/8/8/8/4K3 w - - 0 1`:
white pawn a7, white king e1, black king e8, white to move. -/
def posPromo : Position :=
  mkPos Variant.CHESS Color.WHITE
    [(48, Color.WHITE, PieceType.PAWN), (4, Color.WHITE, PieceType.KING),
     (60, Color.BLACK, PieceType.KING)] none

/-- ANTI-variant position with a capture-promotion: white pawn a7, white
king e1, black rook b8, black king e8, white to move; a7xb8 is available,
so `can_capture()` holds. -/
def posAnti : Position :=
  { mkPos Variant.ANTI Color.WHITE
      [(48, Color.WHITE, PieceType.PAWN), (4, Color.WHITE, PieceType.KING),
       (57, Color.BLACK, PieceType.ROOK), (60, Color.BLACK, PieceType.KING)] none with
    canCapture := true }

/-- Position with a white knight on e4 shielding the white king e1 from the
black rook e8 (a blocker for white's own king, but not for the enemy
king); black king h5 so that the knight has quiet checking moves. -/
def posBlocker : Position :=
  mkPos Variant.CHESS Color.WHITE
    [(4, Color.WHITE, PieceType.KING), (28, Color.WHITE, PieceType.KNIGHT),
     (60, Color.BLACK, PieceType.ROOK), (39, Color.BLACK, PieceType.KING)] none

/-- Position where the capture e7xf8=N delivers a direct knight check:
white king a1, white pawn e7, black rook f8, black king h7. -/
def posNPromo : Position :=
  mkPos Variant.CHESS Color.WHITE
    [(0, Color.WHITE, PieceType.KING), (52, Color.WHITE, PieceType.PAWN),
     (61, Color.BLACK, PieceType.ROOK), (55, Color.BLACK, PieceType.KING)] none

/-- The spec's en-passant evasion scenario `4k3/8/8/K1pP3r/8/8/8/8 w - c6`:
white king a5, black pawn c5 (just double-pushed, ep square c6), white
pawn d5, black rook h5, black king e8. The spec premises that the check
comes from the rook h5, so the position's `checkers()` answer is set to
the rook square as the generator consumes it from the interface (at this
board the king is in fact not attacked at all: both pawns block the
rank). -/
def posEp : Position :=
  { mkPos Variant.CHESS Color.WHITE
      [(32, Color.WHITE, PieceType.KING), (34, Color.BLACK, PieceType.PAWN),
       (35, Color.WHITE, PieceType.PAWN), (39, Color.BLACK, PieceType.ROOK),
       (60, Color.BLACK, PieceType.KING)] (some 42) with
    checkers := bitSq 39 }

/-- ATOMIC position in double check: white king e1, white pawn c2, black
knight d3 and black rook e8 both checking, black king h8. The pawn capture
c2xd3 explodes a checker and is generated by the atomic evasion
pre-pass. -/
def posAtomicDbl : Position :=
  mkPos Variant.ATOMIC Color.WHITE
    [(4, Color.WHITE, PieceType.KING), (10, Color.WHITE, PieceType.PAWN),
     (19, Color.BLACK, PieceType.KNIGHT), (60, Color.BLACK, PieceType.ROOK),
     (63, Color.BLACK, PieceType.KING)] none

/-- Standard-chess position in double check (knight d3 and rook e8 against
the white king e1), used as witness for the double-check evasion shape. -/
def posDblChk : Position :=
  mkPos Variant.CHESS Color.WHITE
    [(4, Color.WHITE, PieceType.KING), (19, Color.BLACK, PieceType.KNIGHT),
     (60, Color.BLACK, PieceType.ROOK), (63, Color.BLACK, PieceType.KING)] none

/-- ANTI position with a mandatory capture and an en-passant square: white
pawn d5, white king e1, black pawn c5 (ep square c6), black rook e6, black
king e8; d5xe6 is a capture, so `can_capture()` holds. -/
def posAntiEp : Position :=
  { mkPos Variant.ANTI Color.WHITE
      [(35, Color.WHITE, PieceType.PAWN), (4, Color.WHITE, PieceType.KING),
       (34, Color.BLACK, PieceType.PAWN), (44, Color.BLACK, PieceType.ROOK),
       (60, Color.BLACK, PieceType.KING)] (some 42) with
    canCapture := true }

/-- Variant-ended position used as witness for the LEGAL early return. -/
def posEnded : Position :=
  { posPromo with isVariantEnd := true }

/-- Modelled from the spec (§4.7 step 5): a candidate of the LEGAL filter
requires validation exactly when `validate` holds, or the move starts at
the king square, or it is an en-passant capture, or (under ATOMIC) it is
any capture; CRAZYHOUSE drops never require validation. -/
def specRequiresValidation (pos : Position) (m : Move) : Bool :=
  ((legalValidate pos = true ∨ m.srcSq = legalKsq pos ∨ m.isEnpassant = true ∨
      (pos.variant = Variant.ATOMIC ∧ pos.capture m = true)) ∧
    ¬ (pos.variant = Variant.CRAZYHOUSE ∧ m.isDrop = true) : Prop)

/-- A move survives the LEGAL filter, per the spec's description: it is
dropped iff it requires validation and the legality oracle rejects it. -/
def specLegalKeep (pos : Position) (m : Move) : Bool :=
  ! (specRequiresValidation pos m && ! pos.legal m)

theorem mem_sqList {b : Bitboard} {s : Nat} : s ∈ sqList b ↔ s < 64 ∧ b.testBit s = true := by
  simp [sqList, List.mem_filter, List.mem_range]

theorem sqList_congr {a b : Bitboard} (h : ∀ i, i < 64 → a.testBit i = b.testBit i) :
    sqList a = sqList b := by
  unfold sqList
  exact List.filter_congr (fun s hs => by rw [h s (List.mem_range.mp hs)])

theorem testBit_FullBB (i : Nat) : FullBB.testBit i = decide (i < 64) := by
  unfold FullBB
  exact Nat.testBit_two_pow_sub_one 64 i

theorem testBit_mask64 (x i : Nat) :
    (x &&& FullBB).testBit i = (x.testBit i && decide (i < 64)) := by
  rw [Nat.testBit_and, testBit_FullBB]

theorem testBit_bcompl (x i : Nat) :
    (bcompl x).testBit i = (! x.testBit i && decide (i < 64)) := by
  unfold bcompl
  rw [Nat.testBit_xor, testBit_FullBB, testBit_mask64]
  cases hx : x.testBit i <;> cases hi : decide (i < 64) <;> rfl

theorem mask64_congr {a b : Nat} (h : ∀ i, i < 64 → a.testBit i = b.testBit i) :
    a &&& FullBB = b &&& FullBB := by
  apply Nat.eq_of_testBit_eq
  intro i
  rw [testBit_mask64, testBit_mask64]
  by_cases hi : i < 64
  · rw [h i hi]
  · simp [hi]

theorem mask64_idem (a : Nat) : (a &&& FullBB) &&& FullBB = a &&& FullBB := by
  apply Nat.eq_of_testBit_eq
  intro i
  rw [testBit_mask64, testBit_mask64]
  cases a.testBit i <;> cases hi : decide (i < 64) <;> rfl

theorem shiftBB_mask (d : Int) (a : Nat) : shiftBB d (a &&& FullBB) = shiftBB d a := by
  unfold shiftBB
  rw [mask64_idem]

theorem shiftBB_congr (d : Int) {a b : Nat} (h : ∀ i, i < 64 → a.testBit i = b.testBit i) :
    shiftBB d a = shiftBB d b := by
  rw [← shiftBB_mask d a, ← shiftBB_mask d b, mask64_congr h]

theorem land_congr64 {a b c : Nat} (h : ∀ i, i < 64 → a.testBit i = b.testBit i) :
    ∀ i, i < 64 → (a &&& c).testBit i = (b &&& c).testBit i := by
  intro i hi
  rw [Nat.testBit_and, Nat.testBit_and, h i hi]

theorem filterM_add_filterM {p q : Nat → Bool} :
    ∀ l : List Nat, (∀ x ∈ l, ¬(p x = true ∧ q x = true)) →
      (↑(l.filter p) : Multiset Nat) + ↑(l.filter q) = ↑(l.filter (fun x => p x || q x)) := by
  intro l
  induction l with
  | nil => intro _; rfl
  | cons x t ih =>
      intro hd
      have hdt : ∀ y ∈ t, ¬(p y = true ∧ q y = true) := fun y hy => hd y (List.mem_cons_of_mem x hy)
      cases hp : p x <;> cases hq : q x
      · rw [List.filter_cons_of_neg (by simp [hp]), List.filter_cons_of_neg (by simp [hq]),
          List.filter_cons_of_neg (by simp [hp, hq])]
        exact ih hdt
      · rw [List.filter_cons_of_neg (by simp [hp]), List.filter_cons_of_pos hq,
          List.filter_cons_of_pos (by simp [hp, hq]), ← Multiset.cons_coe, ← Multiset.cons_coe,
          Multiset.add_cons, ih hdt]
      · rw [List.filter_cons_of_pos hp, List.filter_cons_of_neg (by simp [hq]),
          List.filter_cons_of_pos (by simp [hp, hq]), ← Multiset.cons_coe, ← Multiset.cons_coe,
          Multiset.cons_add, ih hdt]
      · exact absurd ⟨hp, hq⟩ (hd x (List.mem_cons_self x t))

theorem sqListM_union {a b c : Bitboard}
    (hU : ∀ i, i < 64 → (a.testBit i || b.testBit i) = c.testBit i)
    (hD : ∀ i, i < 64 → ¬(a.testBit i = true ∧ b.testBit i = true)) :
    (↑(sqList a) : Multiset Nat) + ↑(sqList b) = ↑(sqList c) := by
  unfold sqList
  rw [filterM_add_filterM (List.range 64) (fun x hx => hD x (List.mem_range.mp hx))]
  congr 1
  exact List.filter_congr (fun s hs => hU s (List.mem_range.mp hs))

theorem sqListM_union_map {α : Type} {a b c : Bitboard} (f : Nat → α)
    (hU : ∀ i, i < 64 → (a.testBit i || b.testBit i) = c.testBit i)
    (hD : ∀ i, i < 64 → ¬(a.testBit i = true ∧ b.testBit i = true)) :
    (↑((sqList a).map f) : Multiset α) + ↑((sqList b).map f) = ↑((sqList c).map f) := by
  have h1 : (↑((sqList a).map f) : Multiset α) = Multiset.map f ↑(sqList a) := rfl
  have h2 : (↑((sqList b).map f) : Multiset α) = Multiset.map f ↑(sqList b) := rfl
  have h3 : (↑((sqList c).map f) : Multiset α) = Multiset.map f ↑(sqList c) := rfl
  rw [h1, h2, h3, ← Multiset.map_add, sqListM_union hU hD]

theorem coe_flatMapM_add {α β : Type} (l : List α) (f g : α → List β) :
    (↑(l.flatMap f) : Multiset β) + ↑(l.flatMap g) = ↑(l.flatMap fun x => f x ++ g x) := by
  induction l with
  | nil => rfl
  | cons x t ih =>
      simp only [List.flatMap_cons]
      rw [← Multiset.coe_add, ← Multiset.coe_add, ← Multiset.coe_add]
      rw [add_add_add_comm, ih, Multiset.coe_add]

theorem coe_flatMapM_congr {α β : Type} {l : List α} {f g : α → List β}
    (h : ∀ x ∈ l, (↑(f x) : Multiset β) = ↑(g x)) :
    (↑(l.flatMap f) : Multiset β) = ↑(l.flatMap g) := by
  induction l with
  | nil => rfl
  | cons x t ih =>
      simp only [List.flatMap_cons]
      rw [← Multiset.coe_add, ← Multiset.coe_add, h x (List.mem_cons_self x t),
        ih (fun y hy => h y (List.mem_cons_of_mem x hy))]

theorem filterLoop_multiset (keep : Move → Bool) :
    ∀ n (l : List Move), l.length ≤ n →
      (↑(filterLoop keep l) : Multiset Move) = ↑(l.filter keep) := by
  intro n
  induction n with
  | zero =>
      intro l hl
      have : l = [] := List.eq_nil_of_length_eq_zero (Nat.le_zero.mp hl)
      subst this
      simp [filterLoop]
  | succ n ih =>
      intro l hl
      match l with
      | [] => simp [filterLoop]
      | m :: t =>
          rw [filterLoop]
          cases hk : keep m
          · simp only [Bool.false_eq_true, if_false]
            match hrev : t.reverse with
            | [] =>
                have ht : t = [] := by
                  have := congrArg List.reverse hrev
                  simpa using this
                subst ht
                simp [List.filter_cons, hk]
            | lastM :: revInit =>
                have ht : t = revInit.reverse ++ [lastM] := by
                  have := congrArg List.reverse hrev
                  simpa [List.reverse_cons] using this
                have hlen : (lastM :: revInit.reverse).length ≤ n := by
                  have h2 : (m :: t).length ≤ n + 1 := hl
                  have h1 : t.length = revInit.length + 1 := by
                    rw [ht]; simp
                  simp only [List.length_cons] at h2
                  simp only [List.length_cons, List.length_reverse]
                  omega
                rw [ih (lastM :: revInit.reverse) hlen]
                have hperm : (lastM :: revInit.reverse).Perm t := by
                  rw [ht]
                  exact (List.perm_append_singleton lastM revInit.reverse).symm
                have hco : (↑((lastM :: revInit.reverse).filter keep) : Multiset Move) =
                    ↑(t.filter keep) := Multiset.coe_eq_coe.mpr (hperm.filter keep)
                rw [hco, List.filter_cons_of_neg (by simp [hk])]
          · simp only [if_true]
            have hlen : t.length ≤ n := by
              simp only [List.length_cons] at hl
              omega
            rw [← Multiset.cons_coe, ih t hlen, List.filter_cons_of_pos hk,
              ← Multiset.cons_coe]

theorem filterLoop_multiset_eq (keep : Move → Bool) (l : List Move) :
    (↑(filterLoop keep l) : Multiset Move) = ↑(l.filter keep) :=
  filterLoop_multiset keep l.length l (Nat.le_refl _)

/-- C9: on a variant-ended position, `generate<LEGAL>` returns the empty
move list without invoking any emitter. -/
theorem legal_variant_end (pos : Position) (h : pos.isVariantEnd = true) :
    generate_legal pos = [] := by
  unfold generate_legal
  rw [if_pos h]

/-- Witness for `legal_variant_end` at a concrete variant-ended position. -/
theorem legal_variant_end_witness : generate_legal posEnded = [] :=
  legal_variant_end posEnded rfl

/-- C3, counterexample: from `4k3/P7/8/8/8/8/8/4K3 w - - 0 1` the CAPTURES
generator does emit a move (the queen promotion a7a8=Q), contradicting the
claim that it emits nothing. -/
theorem captures_promo_counterexample :
    ¬ (generate_main GenType.CAPTURES posPromo = []) := by decide

/-- C3, amended: from `4k3/P7/8/8/8/8/8/4K3 w - - 0 1`, CAPTURES emits
exactly the queen promotion a7a8=Q, and QUIETS emits exactly the three
underpromotions a7a8=R/B/N plus the five king moves e1d1, e1f1, e1d2,
e1e2, e1f2. -/
theorem captures_quiets_at_promo_position :
    generate_main GenType.CAPTURES posPromo = [Move.promotion 48 56 PieceType.QUEEN] ∧
    generate_main GenType.QUIETS posPromo =
      [Move.promotion 48 56 PieceType.ROOK, Move.promotion 48 56 PieceType.BISHOP,
       Move.promotion 48 56 PieceType.KNIGHT, Move.normal 4 3, Move.normal 4 5,
       Move.normal 4 11, Move.normal 4 12, Move.normal 4 13] := by decide

/-- C4, counterexample: in the quiet-check piece emitter the skipped
pieces are the blockers of the ENEMY king, not of one's own king: in
`posBlocker` the white knight e4 is a blocker for white's own king (rook
e8 behind it) and the position is not in check, yet the emitter still
emits the knight move e4f6. -/
theorem blocker_skip_counterexample :
    posBlocker.checkers = 0 ∧
    (posBlocker.blockersForKing Color.WHITE).testBit 28 = true ∧
    Move.normal 28 45 ∈
      generate_moves PieceType.KNIGHT true posBlocker Color.WHITE
        (bcompl posBlocker.allPieces) := by decide

/-- C4, amended: in QUIET_CHECKS mode the per-piece emitter skips every
piece of the side to move that is a blocker for the ENEMY king: no
emitted move originates at such a square. -/
theorem quiet_checks_skips_enemy_king_blockers (pos : Position) (us : Color)
    (target : Bitboard) (pt : PieceType) (m : Move)
    (hchk : pos.checkers = 0)
    (hm : m ∈ generate_moves pt true pos us target) :
    (pos.blockersForKing us.opp).testBit m.srcSq = false := by
  unfold generate_moves at hm
  rw [List.mem_flatMap] at hm
  obtain ⟨f, hf, hmem⟩ := hm
  split at hmem
  · exact absurd hmem (List.not_mem_nil m)
  · split at hmem
    · exact absurd hmem (List.not_mem_nil m)
    · rename_i h1 h2
      rw [List.mem_map] at hmem
      obtain ⟨s, hs, hms⟩ := hmem
      subst hms
      simp only [Move.srcSq]
      simp at h2
      exact h2

/-- Witness for `quiet_checks_skips_enemy_king_blockers`: the knight move
e4f6 emitted at `posBlocker` originates at a square that is not a blocker
for the enemy king. -/
theorem quiet_checks_skips_enemy_king_blockers_witness :
    (posBlocker.blockersForKing Color.WHITE.opp).testBit (Move.normal 28 45).srcSq = false :=
  quiet_checks_skips_enemy_king_blockers posBlocker Color.WHITE
    (bcompl posBlocker.allPieces) PieceType.KNIGHT (Move.normal 28 45)
    (by decide) (by decide)

theorem legalKeep_eq_spec (pos : Position) (m : Move) :
    legalKeep pos (legalValidate pos) (legalKsq pos) m = specLegalKeep pos m := by
  unfold legalKeep specLegalKeep specRequiresValidation
  by_cases hL : pos.legal m = true
  · simp [hL]
  · replace hL : pos.legal m = false := by simpa using hL
    by_cases hV : legalValidate pos = true ∨ m.srcSq = legalKsq pos ∨ m.isEnpassant = true
    · by_cases hH : pos.variant = Variant.CRAZYHOUSE ∧ m.isDrop = true
      · have hA : ¬ (pos.variant = Variant.ATOMIC ∧ pos.capture m = true) := by
          intro hc
          exact Variant.noConfusion (hH.1.symm.trans hc.1)
        rcases hV with hv1 | hv2 | hv3
        · simp [hL, hv1, hH, hA]
        · simp [hL, hv2, hH, hA]
        · simp [hL, hv3, hH, hA]
      · rcases hV with hv1 | hv2 | hv3
        · simp [hL, hv1, hH]
        · simp [hL, hv2, hH]
        · simp [hL, hv3, hH]
    · by_cases hAt : pos.variant = Variant.ATOMIC ∧ pos.capture m = true
      · have hH : ¬ (pos.variant = Variant.CRAZYHOUSE ∧ m.isDrop = true) := by
          intro hc
          exact Variant.noConfusion (hc.1.symm.trans hAt.1)
        simp [hL, hV, hH, hAt]
      · simp [hL, hV, hAt]

/-- C2: in LEGAL mode on a position that is not variant-ended, the output
is, as a multiset, the EVASIONS list (when in check) or the NON_EVASIONS
list (otherwise) filtered by the spec's predicate: a candidate is dropped
iff it requires validation and `pos.legal` rejects it, where requiring
validation means `validate` holds, or the move starts at the king square,
or it is an en-passant capture, or (under ATOMIC) any capture — and
CRAZYHOUSE drops are always kept. -/
theorem legal_filter_characterization (pos : Position) (h : pos.isVariantEnd = false) :
    (↑(generate_legal pos) : Multiset Move) =
    ↑((if pos.checkers ≠ 0 then generate_evasions pos
       else generate_main GenType.NON_EVASIONS pos).filter (specLegalKeep pos)) := by
  unfold generate_legal
  rw [if_neg (by rw [h]; exact Bool.false_ne_true)]
  rw [filterLoop_multiset_eq]
  congr 1
  exact List.filter_congr (fun m _ => legalKeep_eq_spec pos m)

/-- Witness for `legal_filter_characterization` at a concrete position. -/
theorem legal_filter_characterization_witness :
    (↑(generate_legal posPromo) : Multiset Move) =
    ↑((if posPromo.checkers ≠ 0 then generate_evasions posPromo
       else generate_main GenType.NON_EVASIONS posPromo).filter (specLegalKeep posPromo)) :=
  legal_filter_characterization posPromo rfl

theorem make_promotions_shape {v : Variant} {t : GenType} {d : Int} {toSq ksq : Square}
    {m : Move} (hm : m ∈ make_promotions v t d toSq ksq) :
    ∃ pt, m = Move.promotion ((toSq : Int) - d).toNat toSq pt := by
  simp only [make_promotions] at hm
  repeat' split at hm
  all_goals fin_cases hm <;> exact ⟨_, rfl⟩

theorem make_promotions_quiet_checks {v : Variant} {d : Int} {toSq ksq : Square}
    {m : Move} (hm : m ∈ make_promotions v GenType.QUIET_CHECKS d toSq ksq) :
    m = Move.promotion ((toSq : Int) - d).toNat toSq PieceType.KNIGHT := by
  simp only [make_promotions] at hm
  repeat' split at hm
  all_goals first
    | (fin_cases hm <;> rfl)
    | simp_all

theorem promoChunk_shape {m : Move} {l : List Square} {v : Variant} {t : GenType}
    {d : Int} {ksq : Square}
    (hm : m ∈ l.flatMap (fun s => make_promotions v t d s ksq)) :
    ∃ a b pt, m = Move.promotion a b pt := by
  rw [List.mem_flatMap] at hm
  obtain ⟨s, _, hs⟩ := hm
  obtain ⟨pt, h⟩ := make_promotions_shape hs
  exact ⟨_, _, pt, h⟩

theorem normalChunk_shape {m : Move} {l : List Square} {g : Square → Square}
    (hm : m ∈ l.map (fun s => Move.normal (g s) s)) :
    ∃ a b, m = Move.normal a b := by
  rw [List.mem_map] at hm
  obtain ⟨s, _, hs⟩ := hm
  exact ⟨_, _, hs.symm⟩

theorem gpmPushes_isNormal {v : Variant} {us : Color} {t : GenType} {pos : Position}
    {target : Bitboard} {m : Move} (hm : m ∈ gpmPushes v us t pos target) :
    ∃ a b, m = Move.normal a b := by
  simp only [gpmPushes] at hm
  repeat' split at hm
  all_goals first
    | exact absurd hm (List.not_mem_nil m)
    | (rcases List.mem_append.mp hm with hm' | hm' <;> exact normalChunk_shape hm')

theorem gpmPromos_isPromotion {v : Variant} {us : Color} {t : GenType} {pos : Position}
    {target : Bitboard} {m : Move} (hm : m ∈ gpmPromos v us t pos target) :
    ∃ a b pt, m = Move.promotion a b pt := by
  simp only [gpmPromos] at hm
  repeat' split at hm
  all_goals first
    | exact absurd hm (List.not_mem_nil m)
    | (rcases List.mem_append.mp hm with hm' | hm' <;>
        first
          | exact promoChunk_shape hm'
          | (rcases List.mem_append.mp hm' with hm2 | hm2 <;> exact promoChunk_shape hm2))

/-- The en-passant admissibility fact extracted from the capture block of
the pawn emitter: in EVASIONS mode an ENPASSANT move can only be emitted
when the square in front of the en-passant square (the double-pushed
pawn's square) lies in the evasion target. -/
theorem gpmCaps_enpassant_cond {v : Variant} {us : Color} {pos : Position}
    {target : Bitboard} {f e : Square}
    (hm : Move.enpassant f e ∈ gpmCaps v us GenType.EVASIONS pos target) :
    pos.epSquare = some e ∧ target.testBit ((e : Int) - pawnPush us).toNat = true := by
  unfold gpmCaps at hm
  rw [if_pos (show GenType.EVASIONS = GenType.CAPTURES ∨ GenType.EVASIONS = GenType.EVASIONS ∨
    GenType.EVASIONS = GenType.NON_EVASIONS from Or.inr (Or.inl rfl))] at hm
  dsimp only at hm
  cases hep : pos.epSquare with
  | none =>
      rw [hep] at hm
      dsimp only at hm
      rcases List.mem_append.mp hm with hm' | hm' <;>
        · rw [List.mem_map] at hm'
          obtain ⟨s, _, hs⟩ := hm'
          exact absurd hs.symm (by intro h; cases h)
  | some ep =>
      rw [hep] at hm
      dsimp only at hm
      split at hm
      · rcases List.mem_append.mp hm with hm' | hm' <;>
          · rw [List.mem_map] at hm'
            obtain ⟨s, _, hs⟩ := hm'
            exact absurd hs.symm (by intro h; cases h)
      · rename_i hguard
        have hbit : target.testBit ((ep : Int) - pawnPush us).toNat = true := by
          by_cases hb : target.testBit ((ep : Int) - pawnPush us).toNat = true
          · exact hb
          · exact absurd ⟨rfl, hb⟩ hguard
        rcases List.mem_append.mp hm with hm' | hm'
        · rcases List.mem_append.mp hm' with hm2 | hm2 <;>
            · rw [List.mem_map] at hm2
              obtain ⟨s, _, hs⟩ := hm2
              exact absurd hs.symm (by intro h; cases h)
        · rw [List.mem_map] at hm'
          obtain ⟨s, _, hs⟩ := hm'
          have he : e = ep := by
            injection hs.symm
          subst he
          exact ⟨rfl, hbit⟩

/-- C6, counterexample: from `4k3/8/8/K1pP3r/8/8/8/8 w - c6 0 1` with the
rook h5 reported as the checker (the spec's premise), the en-passant
capture d5xc6 IS emitted as an evasion, because c5 = ep − Up lies between
the rook and the king and hence in the evasion target; the claim asserted
it is not emitted. -/
theorem evasion_enpassant_counterexample :
    Move.enpassant 35 42 ∈ generate_evasions posEp := by decide

/-- C6, amended: in EVASIONS mode an ENPASSANT move is emitted only when
`ep_square - Up` lies in the evasion target; from the position
`4k3/8/8/K1pP3r/8/8/8/8 w - c6 0 1` with the rook taken as checker, the
en-passant capture IS emitted as an evasion (c5 lies on the rook-king
ray, so the test passes); at that board the side to move is in fact not
in check at all (the rook is blocked by both pawns). -/
theorem evasion_enpassant_condition :
    (∀ (v : Variant) (us : Color) (pos : Position) (target : Bitboard) (f e : Square),
      Move.enpassant f e ∈ generate_pawn_moves v us GenType.EVASIONS pos target →
        pos.epSquare = some e ∧ target.testBit ((e : Int) - pawnPush us).toNat = true) ∧
    Move.enpassant 35 42 ∈ generate_evasions posEp ∧
    attackersToBB
      [(32, Color.WHITE, PieceType.KING), (34, Color.BLACK, PieceType.PAWN),
       (35, Color.WHITE, PieceType.PAWN), (39, Color.BLACK, PieceType.ROOK),
       (60, Color.BLACK, PieceType.KING)] posEp.allPieces Color.BLACK 32 = 0 := by
  refine ⟨?_, by decide, by decide⟩
  intro v us pos target f e hm
  unfold generate_pawn_moves at hm
  rcases List.mem_append.mp hm with hm' | hm'
  · rcases List.mem_append.mp hm' with hm2 | hm2
    · obtain ⟨a, b, hab⟩ := gpmPushes_isNormal hm2
      exact absurd hab (by intro h; cases h)
    · obtain ⟨a, b, pt, hab⟩ := gpmPromos_isPromotion hm2
      exact absurd hab (by intro h; cases h)
  · exact gpmCaps_enpassant_cond hm'

theorem testBit_of_land_left {a b : Nat} {i : Nat} (h : (a &&& b).testBit i = true) :
    a.testBit i = true := by
  rw [Nat.testBit_and, Bool.and_eq_true] at h
  exact h.1

theorem testBit_of_land_right {a b : Nat} {i : Nat} (h : (a &&& b).testBit i = true) :
    b.testBit i = true := by
  rw [Nat.testBit_and, Bool.and_eq_true] at h
  exact h.2

theorem testBit_lor_cases {a b : Nat} {i : Nat} (h : (a ||| b).testBit i = true) :
    a.testBit i = true ∨ b.testBit i = true := by
  rw [Nat.testBit_or] at h
  rcases Bool.or_eq_true _ _ ▸ h with h1 | h1
  · exact Or.inl h1
  · exact Or.inr h1

set_option maxHeartbeats 1600000 in
theorem gpmPushes_dest {v : Variant} {us : Color} {t : GenType} {pos : Position}
    {target : Bitboard} {m : Move} (hm : m ∈ gpmPushes v us t pos target) :
    ∃ a s, m = Move.normal a s ∧ (pawnEmptyPush v us t pos target).testBit s = true := by
  simp only [gpmPushes] at hm
  split at hm
  · exact absurd hm (List.not_mem_nil m)
  · rcases List.mem_append.mp hm with hm' | hm' <;>
    · rw [List.mem_map] at hm'
      obtain ⟨s, hs, hrfl⟩ := hm'
      subst hrfl
      rw [mem_sqList] at hs
      refine ⟨_, s, rfl, ?_⟩
      have hsbit := hs.2
      repeat' split at hsbit
      all_goals first
        | exact hsbit
        | (simp only [Nat.testBit_and, Nat.testBit_or, Bool.and_eq_true, Bool.or_eq_true,
            Nat.zero_testBit] at hsbit
           tauto)

theorem promoChunk_dest {m : Move} {A X : Bitboard} {v : Variant} {t : GenType}
    {d : Int} {ksq : Square}
    (hm : m ∈ (sqList (A &&& X)).flatMap (fun s => make_promotions v t d s ksq)) :
    ∃ a s pt, m = Move.promotion a s pt ∧ X.testBit s = true := by
  rw [List.mem_flatMap] at hm
  obtain ⟨s, hs, hmem⟩ := hm
  obtain ⟨pt, hpt⟩ := make_promotions_shape hmem
  rw [mem_sqList] at hs
  exact ⟨_, s, pt, hpt, testBit_of_land_right hs.2⟩

theorem gpmPromos_dest {v : Variant} {us : Color} {t : GenType} {pos : Position}
    {target : Bitboard} {m : Move} (hm : m ∈ gpmPromos v us t pos target) :
    ∃ a s pt, m = Move.promotion a s pt ∧
      ((pawnEnemies v us t pos target).testBit s = true ∨
       (pawnEmptyPromo v us t pos target).testBit s = true) := by
  simp only [gpmPromos] at hm
  repeat' split at hm
  all_goals first
    | exact absurd hm (List.not_mem_nil m)
    | (rcases List.mem_append.mp hm with hm' | hm' <;>
        first
          | (obtain ⟨a, s, pt, he, hx⟩ := promoChunk_dest hm'
             exact ⟨a, s, pt, he, Or.inr hx⟩)
          | (rcases List.mem_append.mp hm' with hm2 | hm2 <;>
              · obtain ⟨a, s, pt, he, hx⟩ := promoChunk_dest hm2
                exact ⟨a, s, pt, he, Or.inl hx⟩))

theorem gpmCaps_dest {v : Variant} {us : Color} {t : GenType} {pos : Position}
    {target : Bitboard} {m : Move} (hm : m ∈ gpmCaps v us t pos target) :
    m.isEnpassant = true ∨
      ∃ a s, m = Move.normal a s ∧ (pawnEnemies v us t pos target).testBit s = true := by
  unfold gpmCaps at hm
  split at hm
  · dsimp only at hm
    have hcap : ∀ {d : Int},
        m ∈ List.map (fun (s : Square) => Move.normal ((s : Int) - d).toNat s)
          (sqList (shiftBB d (pos.piecesCP us PieceType.PAWN &&&
            bcompl (if us = Color.WHITE then Rank7BB else Rank2BB)) &&&
              pawnEnemies v us t pos target)) →
        m.isEnpassant = true ∨
          ∃ a s, m = Move.normal a s ∧ (pawnEnemies v us t pos target).testBit s = true := by
      intro d hmm
      rw [List.mem_map] at hmm
      obtain ⟨s, hs, hrfl⟩ := hmm
      subst hrfl
      rw [mem_sqList] at hs
      exact Or.inr ⟨_, s, rfl, testBit_of_land_right hs.2⟩
    cases hep : pos.epSquare with
    | none =>
        rw [hep] at hm
        dsimp only at hm
        rcases List.mem_append.mp hm with hm' | hm' <;> exact hcap hm'
    | some ep =>
        rw [hep] at hm
        dsimp only at hm
        split at hm
        · rcases List.mem_append.mp hm with hm' | hm' <;> exact hcap hm'
        · rcases List.mem_append.mp hm with hm' | hm'
          · rcases List.mem_append.mp hm' with hm2 | hm2 <;> exact hcap hm2
          · rw [List.mem_map] at hm'
            obtain ⟨s, hs, hrfl⟩ := hm'
            subst hrfl
            exact Or.inl rfl
  · exact absurd hm (List.not_mem_nil m)

theorem generate_moves_dest {pt : PieceType} {checks : Bool} {pos : Position} {us : Color}
    {target : Bitboard} {m : Move} (hm : m ∈ generate_moves pt checks pos us target) :
    ∃ a s, m = Move.normal a s ∧ target.testBit s = true := by
  unfold generate_moves at hm
  rw [List.mem_flatMap] at hm
  obtain ⟨f, _, hmem⟩ := hm
  split at hmem
  · exact absurd hmem (List.not_mem_nil m)
  · split at hmem
    · exact absurd hmem (List.not_mem_nil m)
    · dsimp only at hmem
      rw [List.mem_map] at hmem
      obtain ⟨s, hs, hrfl⟩ := hmem
      subst hrfl
      rw [mem_sqList] at hs
      have hsbit := hs.2
      split at hsbit
      · exact ⟨_, s, rfl, testBit_of_land_right (testBit_of_land_left hsbit)⟩
      · exact ⟨_, s, rfl, testBit_of_land_right hsbit⟩

theorem generate_king_moves_dest {pos : Position} {us : Color} {target : Bitboard}
    {m : Move} (hm : m ∈ generate_king_moves pos us target) :
    ∃ a s, m = Move.normal a s ∧ target.testBit s = true ∧
      (pos.piecesCP us PieceType.KING).testBit a = true := by
  unfold generate_king_moves at hm
  rw [List.mem_flatMap] at hm
  obtain ⟨k, hk, hmem⟩ := hm
  rw [List.mem_map] at hmem
  obtain ⟨s, hs, hrfl⟩ := hmem
  subst hrfl
  rw [mem_sqList] at hs hk
  exact ⟨_, s, rfl, testBit_of_land_right hs.2, hk.2⟩

theorem generate_drops_dest {pos : Position} {us : Color} {pt : PieceType} {checks : Bool}
    {b : Bitboard} {m : Move} (hm : m ∈ generate_drops pos us pt checks b) :
    ∃ s, m = Move.drop s us pt ∧ b.testBit s = true := by
  simp only [generate_drops] at hm
  split at hm
  · rw [List.mem_map] at hm
    obtain ⟨s, hs, hrfl⟩ := hm
    subst hrfl
    rw [mem_sqList] at hs
    refine ⟨s, rfl, ?_⟩
    have hsbit := hs.2
    repeat' split at hsbit
    all_goals first
      | exact hsbit
      | (simp only [Nat.testBit_and, Bool.and_eq_true] at hsbit
         tauto)
  · exact absurd hm (List.not_mem_nil m)

/-- C7, counterexample: under ATOMIC, the evasion generator runs a capture
pre-pass before the king phase even in double check; at `posAtomicDbl`
(white in double check from Nd3 and Re8) the emitted pawn capture c2xd3
does not originate at a king square, contradicting the claim. -/
theorem double_check_counterexample :
    moreThanOne posAtomicDbl.checkers = true ∧
    Move.normal 10 19 ∈ generate_evasions posAtomicDbl ∧
    (posAtomicDbl.piecesCP posAtomicDbl.sideToMove PieceType.KING).testBit 10 = false := by
  decide

/-- C7, amended: for every position in double check whose variant is not
ATOMIC, every move emitted by generate(EVASIONS) originates at a king
square of the side to move (generation stops after the king-move phase). -/
theorem double_check_only_king_moves (pos : Position)
    (hv : pos.variant ≠ Variant.ATOMIC)
    (hdbl : moreThanOne pos.checkers = true)
    (hk : (pos.piecesCP pos.sideToMove PieceType.KING).testBit
      (pos.kingSquare pos.sideToMove) = true) :
    ∀ m ∈ generate_evasions pos,
      (pos.piecesCP pos.sideToMove PieceType.KING).testBit m.srcSq = true := by
  intro m hm
  unfold generate_evasions at hm
  dsimp only at hm
  simp only [if_neg hv] at hm
  rw [if_pos hdbl] at hm
  rw [List.nil_append] at hm
  repeat' split at hm
  all_goals first
    | exact absurd hm (List.not_mem_nil m)
    | (rw [List.mem_flatMap] at hm
       obtain ⟨k, hk2, hmem⟩ := hm
       rw [List.mem_map] at hmem
       obtain ⟨s, _, hrfl⟩ := hmem
       subst hrfl
       rw [mem_sqList] at hk2
       exact hk2.2)
    | (rw [List.mem_map] at hm
       obtain ⟨s, _, hrfl⟩ := hm
       subst hrfl
       exact hk)

/-- Witness for `double_check_only_king_moves` at a concrete double-check
position: the emitted evasion e1d1 starts at the white king square. -/
theorem double_check_only_king_moves_witness :
    (posDblChk.piecesCP posDblChk.sideToMove PieceType.KING).testBit
      (Move.normal 4 3).srcSq = true :=
  double_check_only_king_moves posDblChk (by decide) (by decide) (by decide)
    (Move.normal 4 3) (by decide)

theorem pawnEnemies_anti_sub {us : Color} {t : GenType} {pos : Position} {tgt : Bitboard}
    (htgt : ∀ i, tgt.testBit i = true → (pos.piecesC us.opp).testBit i = true) :
    ∀ s, (pawnEnemies Variant.ANTI us t pos tgt).testBit s = true →
      (pos.piecesC us.opp).testBit s = true := by
  intro s h
  simp only [pawnEnemies] at h
  rw [if_neg (by decide : ¬(Variant.ANTI = Variant.ATOMIC))] at h
  split at h
  · exact testBit_of_land_left h
  · split at h
    · exact htgt s h
    · exact h

theorem pawnEmptyPush_anti_sub {us : Color} {t : GenType} {pos : Position} {tgt : Bitboard} :
    ∀ s, (pawnEmptyPush Variant.ANTI us t pos tgt).testBit s = true →
      tgt.testBit s = true := by
  intro s h
  simp only [pawnEmptyPush] at h
  repeat' split at h
  all_goals first
    | exact testBit_of_land_right h
    | exact testBit_of_land_right (testBit_of_land_left h)
    | simp_all

theorem pawnEmptyPromo_anti_sub {us : Color} {t : GenType} {pos : Position} {tgt : Bitboard} :
    ∀ s, (pawnEmptyPromo Variant.ANTI us t pos tgt).testBit s = true →
      tgt.testBit s = true := by
  intro s h
  simp only [pawnEmptyPromo] at h
  repeat' split at h
  all_goals first
    | exact testBit_of_land_right h
    | exact testBit_of_land_right (testBit_of_land_left h)
    | simp_all

theorem generate_all_anti_dest {us : Color} {t : GenType} {pos : Position} {tgt : Bitboard}
    (hc : pos.canCapture = true)
    (htgt : ∀ i, tgt.testBit i = true → (pos.piecesC us.opp).testBit i = true) :
    ∀ m ∈ generate_all Variant.ANTI us t pos tgt,
      m.isEnpassant = true ∨ (pos.piecesC us.opp).testBit m.dest = true := by
  intro m hm
  unfold generate_all at hm
  dsimp only at hm
  rw [if_neg (show ¬(Variant.ANTI = Variant.CRAZYHOUSE ∧ pos.isPlacement = true ∧
      pos.countInHandAll us > 0) from fun h => nomatch h.1)] at hm
  rw [if_neg (show ¬(Variant.ANTI = Variant.CRAZYHOUSE ∧ ¬t = GenType.CAPTURES ∧
      pos.countInHandAll us > 0) from fun h => nomatch h.1)] at hm
  rw [if_neg (show ¬(Variant.ANTI = Variant.HORDE ∧ pos.isHordeColor us = true)
      from fun h => nomatch h.1)] at hm
  rw [if_pos (rfl : Variant.ANTI = Variant.ANTI)] at hm
  rw [if_pos (show (Variant.ANTI = Variant.HORDE ∧ pos.isHordeColor us = true) ∨
      (Variant.ANTI = Variant.ANTI ∧ pos.canCapture = true) from Or.inr ⟨rfl, hc⟩)] at hm
  rw [List.append_nil, List.append_nil] at hm
  rcases List.mem_append.mp hm with hm1 | hm1
  · rcases List.mem_append.mp hm1 with hm2 | hm2
    · -- pawn moves and the four piece emitters
      rcases List.mem_append.mp hm2 with hm3 | hm3
      · rcases List.mem_append.mp hm3 with hm4 | hm4
        · rcases List.mem_append.mp hm4 with hm5 | hm5
          · -- pawn moves
            unfold generate_pawn_moves at hm5
            rcases List.mem_append.mp hm5 with hp | hp
            · rcases List.mem_append.mp hp with hp2 | hp2
              · obtain ⟨a, s, hrfl, hbit⟩ := gpmPushes_dest hp2
                subst hrfl
                exact Or.inr (htgt s (pawnEmptyPush_anti_sub s hbit))
              · obtain ⟨a, s, pt, hrfl, hbit⟩ := gpmPromos_dest hp2
                subst hrfl
                rcases hbit with hb | hb
                · exact Or.inr (pawnEnemies_anti_sub htgt s hb)
                · exact Or.inr (htgt s (pawnEmptyPromo_anti_sub s hb))
            · rcases gpmCaps_dest hp with hb | ⟨a, s, hrfl, hb⟩
              · exact Or.inl hb
              · subst hrfl
                exact Or.inr (pawnEnemies_anti_sub htgt s hb)
          · obtain ⟨a, s, hrfl, hbit⟩ := generate_moves_dest hm5
            subst hrfl
            exact Or.inr (htgt s hbit)
        · obtain ⟨a, s, hrfl, hbit⟩ := generate_moves_dest hm4
          subst hrfl
          exact Or.inr (htgt s hbit)
      · obtain ⟨a, s, hrfl, hbit⟩ := generate_moves_dest hm3
        subst hrfl
        exact Or.inr (htgt s hbit)
    · obtain ⟨a, s, hrfl, hbit⟩ := generate_moves_dest hm2
      subst hrfl
      exact Or.inr (htgt s hbit)
  · obtain ⟨a, s, hrfl, hbit, _⟩ := generate_king_moves_dest hm1
    subst hrfl
    exact Or.inr (htgt s hbit)

/-- C8, counterexample: under ANTI with a mandatory capture available and
an en-passant square exposed, the en-passant move is emitted in CAPTURES
mode and its destination square c6 is empty, so not every emitted board
move lands on an enemy piece. -/
theorem anti_captures_counterexample :
    posAntiEp.canCapture = true ∧
    Move.enpassant 35 42 ∈ generate_main GenType.CAPTURES posAntiEp ∧
    (posAntiEp.piecesC posAntiEp.sideToMove.opp).testBit 42 = false := by decide

/-- C8, amended: under the ANTI variant with `can_capture()` true, every
move emitted by generate in CAPTURES, QUIETS or NON_EVASIONS mode either
is an en-passant capture (whose destination square is empty by the rules)
or lands on an enemy piece. -/
theorem anti_mandatory_captures (pos : Position) (hv : pos.variant = Variant.ANTI)
    (hc : pos.canCapture = true) (t : GenType)
    (ht : t = GenType.CAPTURES ∨ t = GenType.QUIETS ∨ t = GenType.NON_EVASIONS) :
    ∀ m ∈ generate_main t pos,
      m.isEnpassant = true ∨ (pos.piecesC pos.sideToMove.opp).testBit m.dest = true := by
  intro m hm
  unfold generate_main at hm
  dsimp only at hm
  rw [hv] at hm
  dsimp only at hm
  rw [if_pos hc] at hm
  exact generate_all_anti_dest hc (fun i h => testBit_of_land_right h) m hm

/-- Witness for `anti_mandatory_captures`: the capture d5xe6 emitted at
`posAntiEp` in CAPTURES mode lands on the black rook. -/
theorem anti_mandatory_captures_witness :
    (Move.normal 35 44).isEnpassant = true ∨
    (posAntiEp.piecesC posAntiEp.sideToMove.opp).testBit (Move.normal 35 44).dest = true :=
  anti_mandatory_captures posAntiEp rfl rfl GenType.CAPTURES (Or.inl rfl)
    (Move.normal 35 44) (by decide)

theorem dest_nonenemy {pos : Position} {c : Color}
    (hsub : ∀ i, i < 64 → (pos.piecesC c).testBit i = true → pos.allPieces.testBit i = true)
    {s : Nat} (h : (bcompl pos.allPieces).testBit s = true) :
    (pos.piecesC c).testBit s = false := by
  rw [testBit_bcompl, Bool.and_eq_true] at h
  have hs64 : s < 64 := of_decide_eq_true h.2
  by_cases he : (pos.piecesC c).testBit s = true
  · rw [hsub s hs64 he] at h
    exact absurd h.1 (by simp)
  · simpa using he

theorem pawnEmptyPush_qc_sub {v : Variant} {us : Color} {pos : Position} {tgt : Bitboard} :
    ∀ s, (pawnEmptyPush v us GenType.QUIET_CHECKS pos tgt).testBit s = true →
      tgt.testBit s = true := by
  intro s h
  simp only [pawnEmptyPush] at h
  repeat' split at h
  all_goals first
    | exact h
    | exact testBit_of_land_left h
    | exact testBit_of_land_right h
    | simp_all

theorem gpmCaps_qc_nil {v : Variant} {us : Color} {pos : Position} {tgt : Bitboard} :
    gpmCaps v us GenType.QUIET_CHECKS pos tgt = [] := by
  unfold gpmCaps
  rw [if_neg (by decide)]

theorem gpmPromos_qc_knight {v : Variant} {us : Color} {pos : Position} {tgt : Bitboard}
    {m : Move} (hm : m ∈ gpmPromos v us GenType.QUIET_CHECKS pos tgt) :
    m.isKnightPromotion = true := by
  simp only [gpmPromos] at hm
  repeat' split at hm
  all_goals first
    | exact absurd hm (List.not_mem_nil m)
    | (rcases List.mem_append.mp hm with hm' | hm' <;>
        first
          | (rw [List.mem_flatMap] at hm'
             obtain ⟨s, _, hmem⟩ := hm'
             rw [make_promotions_quiet_checks hmem]
             rfl)
          | (rcases List.mem_append.mp hm' with hm2 | hm2 <;>
              · rw [List.mem_flatMap] at hm2
                obtain ⟨s, _, hmem⟩ := hm2
                rw [make_promotions_quiet_checks hmem]
                rfl))

theorem drops_dest_sub {pos : Position} {us : Color} {checks : Bool} {base : Bitboard}
    {m : Move} {tail : List Move}
    (htail : ∀ m' ∈ tail, ∃ s pt, m' = Move.drop s us pt ∧ base.testBit s = true)
    (hm : m ∈ generate_drops pos us PieceType.PAWN checks (base &&& bcompl (Rank1BB ||| Rank8BB))
        ++ generate_drops pos us PieceType.KNIGHT checks base
        ++ generate_drops pos us PieceType.BISHOP checks base
        ++ generate_drops pos us PieceType.ROOK checks base
        ++ generate_drops pos us PieceType.QUEEN checks base
        ++ tail) :
    ∃ s pt, m = Move.drop s us pt ∧ base.testBit s = true := by
  rcases List.mem_append.mp hm with h1 | h1
  rcases List.mem_append.mp h1 with h2 | h2
  rcases List.mem_append.mp h2 with h3 | h3
  rcases List.mem_append.mp h3 with h4 | h4
  rcases List.mem_append.mp h4 with h5 | h5
  · obtain ⟨s, hrfl, hbit⟩ := generate_drops_dest h5
    exact ⟨s, _, hrfl, testBit_of_land_left hbit⟩
  · obtain ⟨s, hrfl, hbit⟩ := generate_drops_dest h5
    exact ⟨s, _, hrfl, hbit⟩
  · obtain ⟨s, hrfl, hbit⟩ := generate_drops_dest h4
    exact ⟨s, _, hrfl, hbit⟩
  · obtain ⟨s, hrfl, hbit⟩ := generate_drops_dest h3
    exact ⟨s, _, hrfl, hbit⟩
  · obtain ⟨s, hrfl, hbit⟩ := generate_drops_dest h2
    exact ⟨s, _, hrfl, hbit⟩
  · exact htail m h1

set_option maxHeartbeats 1600000 in
theorem generate_all_qc_dest {v : Variant} {us : Color} {pos : Position}
    (hsub : ∀ i, i < 64 → (pos.piecesC us.opp).testBit i = true →
      pos.allPieces.testBit i = true) :
    ∀ m ∈ generate_all v us GenType.QUIET_CHECKS pos (bcompl pos.allPieces),
      (pos.piecesC us.opp).testBit m.dest = false ∨ m.isKnightPromotion = true := by
  intro m hm
  unfold generate_all at hm
  dsimp only at hm
  rcases List.mem_append.mp hm with h1 | hC
  rcases List.mem_append.mp h1 with h2 | hK
  rcases List.mem_append.mp h2 with hP | hD
  · -- pawn moves and the piece emitters
    split at hP
    · exact absurd hP (List.not_mem_nil m)
    · rcases List.mem_append.mp hP with h3 | h3
      rcases List.mem_append.mp h3 with h4 | h4
      rcases List.mem_append.mp h4 with h5 | h5
      rcases List.mem_append.mp h5 with h6 | h6
      · -- pawn moves
        unfold generate_pawn_moves at h6
        rcases List.mem_append.mp h6 with hp | hp
        rcases List.mem_append.mp hp with hp2 | hp2
        · obtain ⟨a, s, hrfl, hbit⟩ := gpmPushes_dest hp2
          subst hrfl
          exact Or.inl (dest_nonenemy hsub (pawnEmptyPush_qc_sub s hbit))
        · exact Or.inr (gpmPromos_qc_knight hp2)
        · rw [gpmCaps_qc_nil] at hp
          exact absurd hp (List.not_mem_nil m)
      · obtain ⟨a, s, hrfl, hbit⟩ := generate_moves_dest h6
        subst hrfl
        exact Or.inl (dest_nonenemy hsub hbit)
      · obtain ⟨a, s, hrfl, hbit⟩ := generate_moves_dest h5
        subst hrfl
        exact Or.inl (dest_nonenemy hsub hbit)
      · obtain ⟨a, s, hrfl, hbit⟩ := generate_moves_dest h4
        subst hrfl
        exact Or.inl (dest_nonenemy hsub hbit)
      · obtain ⟨a, s, hrfl, hbit⟩ := generate_moves_dest h3
        subst hrfl
        exact Or.inl (dest_nonenemy hsub hbit)
  · -- crazyhouse drops
    by_cases hdc : v = Variant.CRAZYHOUSE ∧ ¬GenType.QUIET_CHECKS = GenType.CAPTURES ∧
        0 < pos.countInHandAll us
    · rw [if_pos hdc] at hD
      rw [if_neg (by decide : ¬(GenType.QUIET_CHECKS = GenType.EVASIONS)),
        if_neg (by decide : ¬(GenType.QUIET_CHECKS = GenType.NON_EVASIONS))] at hD
      by_cases hpl : pos.isPlacement = true
      · simp only [if_pos hpl] at hD
        obtain ⟨s, pt, hrfl, hbit⟩ := drops_dest_sub
          (fun m' hm' => by
            obtain ⟨s, hrfl, hbit⟩ := generate_drops_dest hm'
            exact ⟨s, _, hrfl, hbit⟩) hD
        subst hrfl
        exact Or.inl (dest_nonenemy hsub (testBit_of_land_left hbit))
      · simp only [if_neg hpl] at hD
        obtain ⟨s, pt, hrfl, hbit⟩ := drops_dest_sub
          (fun m' hm' => absurd hm' (List.not_mem_nil m')) hD
        subst hrfl
        exact Or.inl (dest_nonenemy hsub hbit)
    · rw [if_neg hdc] at hD
      exact absurd hD (List.not_mem_nil m)
  · -- king section
    repeat' split at hK
    all_goals first
      | exact absurd hK (List.not_mem_nil m)
      | (obtain ⟨a, s, hrfl, hbit, _⟩ := generate_king_moves_dest hK
         subst hrfl
         exact Or.inl (dest_nonenemy hsub hbit))
      | simp_all
  · -- castling section
    repeat' split at hC
    all_goals first
      | exact absurd hC (List.not_mem_nil m)
      | simp_all

/-- C5, counterexample: generate(QUIET_CHECKS) can emit a capture: at
`posNPromo` the capture promotion e7xf8=N gives direct check and is
emitted, and its destination f8 holds the black rook. -/
theorem quiet_checks_capture_counterexample :
    posNPromo.checkers = 0 ∧
    Move.promotion 52 61 PieceType.KNIGHT ∈ generate_quiet_checks posNPromo ∧
    (posNPromo.piecesC posNPromo.sideToMove.opp).testBit 61 = true := by decide

/-- C5, amended: every move emitted by generate(QUIET_CHECKS) on a
position not in check is a non-capture — its destination square is not
occupied by an enemy piece — except knight promotions, which may capture
when the promoted knight gives direct check. -/
theorem quiet_checks_noncapture (pos : Position)
    (hchk : pos.checkers = 0)
    (hsub : ∀ i, i < 64 → (pos.piecesC pos.sideToMove.opp).testBit i = true →
      pos.allPieces.testBit i = true) :
    ∀ m ∈ generate_quiet_checks pos,
      (pos.piecesC pos.sideToMove.opp).testBit m.dest = false ∨
      m.isKnightPromotion = true := by
  intro m hm
  unfold generate_quiet_checks at hm
  dsimp only at hm
  split at hm
  · exact absurd hm (List.not_mem_nil m)
  · rcases List.mem_append.mp hm with hdc | hga
    · rw [List.mem_flatMap] at hdc
      obtain ⟨f, _, hmem⟩ := hdc
      split at hmem
      · exact absurd hmem (List.not_mem_nil m)
      · try dsimp only at hmem
        rw [List.mem_map] at hmem
        obtain ⟨s, hs, hrfl⟩ := hmem
        subst hrfl
        rw [mem_sqList] at hs
        have hsbit := hs.2
        refine Or.inl (dest_nonenemy hsub ?_)
        split at hsbit
        · exact testBit_of_land_right (testBit_of_land_left hsbit)
        · exact testBit_of_land_right hsbit
    · exact generate_all_qc_dest hsub m hga

/-- Witness for `quiet_checks_noncapture`: the knight underpromotion
emitted at `posNPromo` falls under the knight-promotion exception. -/
theorem quiet_checks_noncapture_witness :
    (posNPromo.piecesC posNPromo.sideToMove.opp).testBit
      (Move.promotion 52 61 PieceType.KNIGHT).dest = false ∨
    (Move.promotion 52 61 PieceType.KNIGHT).isKnightPromotion = true :=
  quiet_checks_noncapture posNPromo (by decide) (by decide)
    (Move.promotion 52 61 PieceType.KNIGHT) (by decide)

/-- Pointwise equality of bitboards on the 64 board bits; all move-list
computations only read these bits. -/
def PW (a b : Bitboard) : Prop := ∀ i, i < 64 → a.testBit i = b.testBit i

theorem PW.refl (a : Bitboard) : PW a a := fun _ _ => rfl

theorem PW.ofEq {a b : Bitboard} (h : a = b) : PW a b := fun _ _ => by rw [h]

theorem PW.land2 {a b c d : Bitboard} (h1 : PW a b) (h2 : PW c d) : PW (a &&& c) (b &&& d) := by
  intro i hi
  rw [Nat.testBit_and, Nat.testBit_and, h1 i hi, h2 i hi]

theorem PW.lor2 {a b c d : Bitboard} (h1 : PW a b) (h2 : PW c d) : PW (a ||| c) (b ||| d) := by
  intro i hi
  rw [Nat.testBit_or, Nat.testBit_or, h1 i hi, h2 i hi]

theorem PW.shift {a b : Bitboard} (d : Int) (h : PW a b) : shiftBB d a = shiftBB d b :=
  shiftBB_congr d h

theorem sqList_eq_of_PW {a b : Bitboard} (h : PW a b) : sqList a = sqList b :=
  sqList_congr h

theorem pawnEmptyPush_quiets {v : Variant} {us : Color} {pos : Position} {tg : Bitboard}
    (hvA : v ≠ Variant.ANTI) : pawnEmptyPush v us GenType.QUIETS pos tg = tg := by
  unfold pawnEmptyPush
  rw [if_pos (Or.inl rfl), if_neg hvA]

theorem pawnEmptyPush_nonev {v : Variant} {us : Color} {pos : Position} {tg : Bitboard}
    (hvA : v ≠ Variant.ANTI) :
    pawnEmptyPush v us GenType.NON_EVASIONS pos tg = bcompl pos.allPieces := by
  unfold pawnEmptyPush
  rw [if_neg hvA,
    if_neg (show ¬(GenType.NON_EVASIONS = GenType.QUIETS ∨
      GenType.NON_EVASIONS = GenType.QUIET_CHECKS) by decide)]

theorem pawnEnemies_capt {v : Variant} {us : Color} {pos : Position} {tg : Bitboard}
    (hvAt : v ≠ Variant.ATOMIC) : pawnEnemies v us GenType.CAPTURES pos tg = tg := by
  unfold pawnEnemies
  rw [if_neg hvAt,
    if_neg (show ¬(GenType.CAPTURES = GenType.EVASIONS) by decide),
    if_pos (show GenType.CAPTURES = GenType.CAPTURES from rfl)]

theorem pawnEnemies_quiets {v : Variant} {us : Color} {pos : Position} {tg : Bitboard}
    (hvAt : v ≠ Variant.ATOMIC) :
    pawnEnemies v us GenType.QUIETS pos tg = pos.piecesC us.opp := by
  unfold pawnEnemies
  rw [if_neg hvAt,
    if_neg (show ¬(GenType.QUIETS = GenType.EVASIONS) by decide),
    if_neg (show ¬(GenType.QUIETS = GenType.CAPTURES) by decide)]

theorem pawnEnemies_nonev {v : Variant} {us : Color} {pos : Position} {tg : Bitboard}
    (hvAt : v ≠ Variant.ATOMIC) :
    pawnEnemies v us GenType.NON_EVASIONS pos tg = pos.piecesC us.opp := by
  unfold pawnEnemies
  rw [if_neg hvAt,
    if_neg (show ¬(GenType.NON_EVASIONS = GenType.EVASIONS) by decide),
    if_neg (show ¬(GenType.NON_EVASIONS = GenType.CAPTURES) by decide)]

theorem pawnEnemies_atomic_capt {us : Color} {pos : Position} {tg : Bitboard} :
    pawnEnemies Variant.ATOMIC us GenType.CAPTURES pos tg = tg &&& tg := by
  unfold pawnEnemies
  rw [if_pos (show Variant.ATOMIC = Variant.ATOMIC from rfl),
    if_neg (show ¬(GenType.CAPTURES = GenType.EVASIONS) by decide),
    if_pos (show GenType.CAPTURES = GenType.CAPTURES from rfl),
    if_pos (show GenType.CAPTURES = GenType.CAPTURES ∨
      GenType.CAPTURES = GenType.NON_EVASIONS from Or.inl rfl)]

theorem pawnEnemies_atomic_quiets {us : Color} {pos : Position} {tg : Bitboard} :
    pawnEnemies Variant.ATOMIC us GenType.QUIETS pos tg =
      pos.piecesC us.opp &&&
        bcompl (adjacentSquaresBB (pos.piecesCP us PieceType.KING)) := by
  unfold pawnEnemies
  rw [if_pos (show Variant.ATOMIC = Variant.ATOMIC from rfl),
    if_neg (show ¬(GenType.QUIETS = GenType.EVASIONS) by decide),
    if_neg (show ¬(GenType.QUIETS = GenType.CAPTURES) by decide),
    if_neg (show ¬(GenType.QUIETS = GenType.CAPTURES ∨
      GenType.QUIETS = GenType.NON_EVASIONS) by decide)]

theorem pawnEnemies_atomic_nonev {us : Color} {pos : Position} {tg : Bitboard} :
    pawnEnemies Variant.ATOMIC us GenType.NON_EVASIONS pos tg =
      pos.piecesC us.opp &&& tg := by
  unfold pawnEnemies
  rw [if_pos (show Variant.ATOMIC = Variant.ATOMIC from rfl),
    if_neg (show ¬(GenType.NON_EVASIONS = GenType.EVASIONS) by decide),
    if_neg (show ¬(GenType.NON_EVASIONS = GenType.CAPTURES) by decide),
    if_pos (show GenType.NON_EVASIONS = GenType.CAPTURES ∨
      GenType.NON_EVASIONS = GenType.NON_EVASIONS from Or.inr rfl)]

theorem pawnEmptyPromo_capt {v : Variant} {us : Color} {pos : Position} {tg : Bitboard}
    (hvA : v ≠ Variant.ANTI) (hvL : v ≠ Variant.LOSERS) (hchk : pos.checkers = 0) :
    pawnEmptyPromo v us GenType.CAPTURES pos tg = bcompl pos.allPieces := by
  unfold pawnEmptyPromo
  rw [if_neg (show ¬(GenType.CAPTURES = GenType.EVASIONS) by decide),
    if_neg hvL, if_neg hvA,
    if_pos (show GenType.CAPTURES = GenType.CAPTURES from rfl),
    if_neg (show ¬(v = Variant.ATOMIC ∧ pos.checkers ≠ 0) from fun h => h.2 hchk)]

theorem pawnEmptyPromo_quiets {v : Variant} {us : Color} {pos : Position} {tg : Bitboard}
    (hvA : v ≠ Variant.ANTI) (hvL : v ≠ Variant.LOSERS) :
    pawnEmptyPromo v us GenType.QUIETS pos tg = tg := by
  unfold pawnEmptyPromo
  rw [if_neg (show ¬(GenType.QUIETS = GenType.EVASIONS) by decide),
    if_neg hvL, if_neg hvA,
    if_neg (show ¬(GenType.QUIETS = GenType.CAPTURES) by decide),
    pawnEmptyPush_quiets hvA]

theorem pawnEmptyPromo_nonev {v : Variant} {us : Color} {pos : Position} {tg : Bitboard}
    (hvA : v ≠ Variant.ANTI) (hvL : v ≠ Variant.LOSERS) :
    pawnEmptyPromo v us GenType.NON_EVASIONS pos tg = bcompl pos.allPieces := by
  unfold pawnEmptyPromo
  rw [if_neg (show ¬(GenType.NON_EVASIONS = GenType.EVASIONS) by decide),
    if_neg hvL, if_neg hvA,
    if_neg (show ¬(GenType.NON_EVASIONS = GenType.CAPTURES) by decide),
    pawnEmptyPush_nonev hvA]

theorem make_promotions_merge {v : Variant} (hvA : v ≠ Variant.ANTI)
    (hvL : v ≠ Variant.LOSERS) (d : Int) (toSq ksq : Square) :
    make_promotions v GenType.CAPTURES d toSq ksq ++
      make_promotions v GenType.QUIETS d toSq ksq =
    make_promotions v GenType.NON_EVASIONS d toSq ksq := by
  unfold make_promotions
  simp only [if_neg hvA, if_neg hvL]
  by_cases hH : v = Variant.HORDE ∧ ksq = 64 <;> simp [hH]

theorem gpmPushes_capt {v : Variant} {us : Color} {pos : Position} {tg : Bitboard} :
    gpmPushes v us GenType.CAPTURES pos tg = [] := by
  unfold gpmPushes
  rw [if_pos rfl]

theorem gpmCaps_quiets {v : Variant} {us : Color} {pos : Position} {tg : Bitboard} :
    gpmCaps v us GenType.QUIETS pos tg = [] := by
  unfold gpmCaps
  rw [if_neg (by decide)]

theorem gpmPushes_QN {v : Variant} {us : Color} {pos : Position} {tQ tNE : Bitboard}
    (hvA : v ≠ Variant.ANTI) (hvL : v ≠ Variant.LOSERS)
    (hQ : PW tQ (bcompl pos.allPieces)) :
    gpmPushes v us GenType.QUIETS pos tQ = gpmPushes v us GenType.NON_EVASIONS pos tNE := by
  unfold gpmPushes
  rw [if_neg (show ¬(GenType.QUIETS = GenType.CAPTURES) by decide),
    if_neg (show ¬(GenType.NON_EVASIONS = GenType.CAPTURES) by decide)]
  simp only [show (GenType.QUIETS = GenType.QUIET_CHECKS) = False by simp,
    show (GenType.NON_EVASIONS = GenType.QUIET_CHECKS) = False by simp,
    show (GenType.QUIETS = GenType.EVASIONS) = False by simp,
    show (GenType.NON_EVASIONS = GenType.EVASIONS) = False by simp,
    false_and, if_false, if_neg hvL]
  rw [pawnEmptyPush_quiets hvA, pawnEmptyPush_nonev hvA]
  congr 1
  · rw [sqList_eq_of_PW (PW.land2 (PW.refl _) hQ)]
  · by_cases hvH : v = Variant.HORDE
    · simp only [if_pos hvH]
      have h1 : shiftBB (pawnPush us)
          ((shiftBB (pawnPush us) (pos.piecesCP us PieceType.PAWN &&&
            bcompl (if us = Color.WHITE then Rank7BB else Rank2BB)) &&& tQ) &&&
            ((if us = Color.WHITE then Rank2BB else Rank7BB) |||
             (if us = Color.WHITE then Rank3BB else Rank6BB))) =
          shiftBB (pawnPush us)
          ((shiftBB (pawnPush us) (pos.piecesCP us PieceType.PAWN &&&
            bcompl (if us = Color.WHITE then Rank7BB else Rank2BB)) &&&
              bcompl pos.allPieces) &&&
            ((if us = Color.WHITE then Rank2BB else Rank7BB) |||
             (if us = Color.WHITE then Rank3BB else Rank6BB))) :=
        PW.shift _ (PW.land2 (PW.land2 (PW.refl _) hQ) (PW.refl _))
      rw [sqList_eq_of_PW (PW.land2 (PW.ofEq h1) hQ)]
    · simp only [if_neg hvH]
      have h1 : shiftBB (pawnPush us)
          ((shiftBB (pawnPush us) (pos.piecesCP us PieceType.PAWN &&&
            bcompl (if us = Color.WHITE then Rank7BB else Rank2BB)) &&& tQ) &&&
            (if us = Color.WHITE then Rank3BB else Rank6BB)) =
          shiftBB (pawnPush us)
          ((shiftBB (pawnPush us) (pos.piecesCP us PieceType.PAWN &&&
            bcompl (if us = Color.WHITE then Rank7BB else Rank2BB)) &&&
              bcompl pos.allPieces) &&&
            (if us = Color.WHITE then Rank3BB else Rank6BB)) :=
        PW.shift _ (PW.land2 (PW.land2 (PW.refl _) hQ) (PW.refl _))
      rw [sqList_eq_of_PW (PW.land2 (PW.ofEq h1) hQ)]

theorem gpmCaps_CN {v : Variant} {us : Color} {pos : Position} {tC tNE : Bitboard}
    (hEC : PW (pawnEnemies v us GenType.CAPTURES pos tC)
      (pawnEnemies v us GenType.NON_EVASIONS pos tNE)) :
    gpmCaps v us GenType.CAPTURES pos tC = gpmCaps v us GenType.NON_EVASIONS pos tNE := by
  unfold gpmCaps
  rw [if_pos (show GenType.CAPTURES = GenType.CAPTURES ∨ GenType.CAPTURES = GenType.EVASIONS ∨
      GenType.CAPTURES = GenType.NON_EVASIONS from Or.inl rfl),
    if_pos (show GenType.NON_EVASIONS = GenType.CAPTURES ∨
      GenType.NON_EVASIONS = GenType.EVASIONS ∨
      GenType.NON_EVASIONS = GenType.NON_EVASIONS from Or.inr (Or.inr rfl))]
  dsimp only
  rw [sqList_eq_of_PW (PW.land2 (PW.refl (shiftBB (if us = Color.WHITE then 9 else -9)
      (pos.piecesCP us PieceType.PAWN &&&
        bcompl (if us = Color.WHITE then Rank7BB else Rank2BB)))) hEC),
    sqList_eq_of_PW (PW.land2 (PW.refl (shiftBB (if us = Color.WHITE then 7 else -7)
      (pos.piecesCP us PieceType.PAWN &&&
        bcompl (if us = Color.WHITE then Rank7BB else Rank2BB)))) hEC)]
  cases hep : pos.epSquare with
  | none => rfl
  | some ep =>
      simp only [show (GenType.CAPTURES = GenType.EVASIONS) = False by simp,
        show (GenType.NON_EVASIONS = GenType.EVASIONS) = False by simp,
        false_and, if_false]

theorem generate_moves_partition (pt : PieceType) (pos : Position) (us : Color)
    {tC tQ tNE : Bitboard}
    (hU : ∀ i, i < 64 → (tC.testBit i || tQ.testBit i) = tNE.testBit i)
    (hD : ∀ i, i < 64 → ¬(tC.testBit i = true ∧ tQ.testBit i = true)) :
    (↑(generate_moves pt false pos us tC) : Multiset Move)
      + ↑(generate_moves pt false pos us tQ)
      = ↑(generate_moves pt false pos us tNE) := by
  unfold generate_moves
  simp only [Bool.false_eq_true, false_and, if_false]
  rw [coe_flatMapM_add]
  apply coe_flatMapM_congr
  intro f _
  rw [← Multiset.coe_add]
  exact sqListM_union_map (fun s => Move.normal f s)
    (fun i hi => by
      rw [Nat.testBit_and, Nat.testBit_and, Nat.testBit_and, ← hU i hi]
      cases (pos.attacksFrom pt f).testBit i <;> cases tC.testBit i <;>
        cases tQ.testBit i <;> rfl)
    (fun i hi h => hD i hi ⟨testBit_of_land_right h.1, testBit_of_land_right h.2⟩)

theorem generate_king_moves_partition (pos : Position) (us : Color)
    {tC tQ tNE : Bitboard}
    (hU : ∀ i, i < 64 → (tC.testBit i || tQ.testBit i) = tNE.testBit i)
    (hD : ∀ i, i < 64 → ¬(tC.testBit i = true ∧ tQ.testBit i = true)) :
    (↑(generate_king_moves pos us tC) : Multiset Move) + ↑(generate_king_moves pos us tQ)
      = ↑(generate_king_moves pos us tNE) := by
  unfold generate_king_moves
  rw [coe_flatMapM_add]
  apply coe_flatMapM_congr
  intro k _
  rw [← Multiset.coe_add]
  exact sqListM_union_map (fun s => Move.normal k s)
    (fun i hi => by
      rw [Nat.testBit_and, Nat.testBit_and, Nat.testBit_and, ← hU i hi]
      cases (pos.attacksFrom PieceType.KING k).testBit i <;> cases tC.testBit i <;>
        cases tQ.testBit i <;> rfl)
    (fun i hi h => hD i hi ⟨testBit_of_land_right h.1, testBit_of_land_right h.2⟩)

theorem gpmPromos_partition {v : Variant} {us : Color} {pos : Position}
    {tC tQ tNE : Bitboard}
    (hvA : v ≠ Variant.ANTI) (hvL : v ≠ Variant.LOSERS) (hchk : pos.checkers = 0)
    (hQ : PW tQ (bcompl pos.allPieces))
    (hEC : PW (pawnEnemies v us GenType.CAPTURES pos tC)
      (pawnEnemies v us GenType.NON_EVASIONS pos tNE))
    (hEQ : PW (pawnEnemies v us GenType.QUIETS pos tQ)
      (pawnEnemies v us GenType.NON_EVASIONS pos tNE)) :
    (↑(gpmPromos v us GenType.CAPTURES pos tC) : Multiset Move)
      + ↑(gpmPromos v us GenType.QUIETS pos tQ)
      = ↑(gpmPromos v us GenType.NON_EVASIONS pos tNE) := by
  unfold gpmPromos
  dsimp only
  by_cases h7 : pos.piecesCP us PieceType.PAWN &&&
      (if us = Color.WHITE then Rank7BB else Rank2BB) ≠ 0
  · simp only [if_pos h7]
    rw [pawnEmptyPromo_capt hvA hvL hchk, pawnEmptyPromo_quiets hvA hvL,
      pawnEmptyPromo_nonev hvA hvL]
    rw [sqList_eq_of_PW (PW.land2 (PW.refl (shiftBB (if us = Color.WHITE then 9 else -9)
        (pos.piecesCP us PieceType.PAWN &&&
          (if us = Color.WHITE then Rank7BB else Rank2BB)))) hEC),
      sqList_eq_of_PW (PW.land2 (PW.refl (shiftBB (if us = Color.WHITE then 7 else -7)
        (pos.piecesCP us PieceType.PAWN &&&
          (if us = Color.WHITE then Rank7BB else Rank2BB)))) hEC),
      sqList_eq_of_PW (PW.land2 (PW.refl (shiftBB (if us = Color.WHITE then 9 else -9)
        (pos.piecesCP us PieceType.PAWN &&&
          (if us = Color.WHITE then Rank7BB else Rank2BB)))) hEQ),
      sqList_eq_of_PW (PW.land2 (PW.refl (shiftBB (if us = Color.WHITE then 7 else -7)
        (pos.piecesCP us PieceType.PAWN &&&
          (if us = Color.WHITE then Rank7BB else Rank2BB)))) hEQ),
      sqList_eq_of_PW (PW.land2 (PW.refl (shiftBB (pawnPush us)
        (pos.piecesCP us PieceType.PAWN &&&
          (if us = Color.WHITE then Rank7BB else Rank2BB)))) hQ)]
    simp only [← Multiset.coe_add]
    have key : ∀ (l : List Square) (d : Int),
        (↑(l.flatMap (fun s => make_promotions v GenType.CAPTURES d s (pawnKsq v us pos)))
          : Multiset Move)
        + ↑(l.flatMap (fun s => make_promotions v GenType.QUIETS d s (pawnKsq v us pos)))
        = ↑(l.flatMap (fun s => make_promotions v GenType.NON_EVASIONS d s
            (pawnKsq v us pos))) := by
      intro l d
      rw [coe_flatMapM_add]
      exact coe_flatMapM_congr (fun s _ => by rw [make_promotions_merge hvA hvL])
    rw [← key _ _, ← key _ _, ← key _ _]
    abel
  · simp only [if_neg h7]
    rfl

theorem gpm_partition {v : Variant} {us : Color} {pos : Position}
    {tC tQ tNE : Bitboard}
    (hvA : v ≠ Variant.ANTI) (hvL : v ≠ Variant.LOSERS) (hchk : pos.checkers = 0)
    (hQ : PW tQ (bcompl pos.allPieces))
    (hEC : PW (pawnEnemies v us GenType.CAPTURES pos tC)
      (pawnEnemies v us GenType.NON_EVASIONS pos tNE))
    (hEQ : PW (pawnEnemies v us GenType.QUIETS pos tQ)
      (pawnEnemies v us GenType.NON_EVASIONS pos tNE)) :
    (↑(generate_pawn_moves v us GenType.CAPTURES pos tC) : Multiset Move)
      + ↑(generate_pawn_moves v us GenType.QUIETS pos tQ)
      = ↑(generate_pawn_moves v us GenType.NON_EVASIONS pos tNE) := by
  unfold generate_pawn_moves
  rw [gpmPushes_capt, gpmCaps_quiets, @gpmPushes_QN v us pos tQ tNE hvA hvL hQ,
    gpmCaps_CN hEC, List.nil_append, List.append_nil]
  simp only [← Multiset.coe_add]
  rw [← gpmPromos_partition hvA hvL hchk hQ hEC hEQ]
  abel

/-- Concatenation of four list chunks respects a chunkwise multiset partition. -/
theorem concat4_partition {a1 a2 a3 a4 b1 b2 b3 b4 c1 c2 c3 c4 : List Move}
    (h1 : (↑a1 : Multiset Move) + ↑b1 = ↑c1) (h2 : (↑a2 : Multiset Move) + ↑b2 = ↑c2)
    (h3 : (↑a3 : Multiset Move) + ↑b3 = ↑c3) (h4 : (↑a4 : Multiset Move) + ↑b4 = ↑c4) :
    (↑(a1 ++ a2 ++ a3 ++ a4) : Multiset Move) + ↑(b1 ++ b2 ++ b3 ++ b4)
      = ↑(c1 ++ c2 ++ c3 ++ c4) := by
  simp only [← Multiset.coe_add]
  rw [← h1, ← h2, ← h3, ← h4]
  abel

/-- Concatenation of five list chunks respects a chunkwise multiset partition. -/
theorem concat5_partition {a1 a2 a3 a4 a5 b1 b2 b3 b4 b5 c1 c2 c3 c4 c5 : List Move}
    (h1 : (↑a1 : Multiset Move) + ↑b1 = ↑c1) (h2 : (↑a2 : Multiset Move) + ↑b2 = ↑c2)
    (h3 : (↑a3 : Multiset Move) + ↑b3 = ↑c3) (h4 : (↑a4 : Multiset Move) + ↑b4 = ↑c4)
    (h5 : (↑a5 : Multiset Move) + ↑b5 = ↑c5) :
    (↑(a1 ++ a2 ++ a3 ++ a4 ++ a5) : Multiset Move) + ↑(b1 ++ b2 ++ b3 ++ b4 ++ b5)
      = ↑(c1 ++ c2 ++ c3 ++ c4 ++ c5) := by
  simp only [← Multiset.coe_add]
  rw [← h1, ← h2, ← h3, ← h4, ← h5]
  abel

set_option maxHeartbeats 1600000 in
/-- Partition of `generate_all` (movegen.cpp lines 340-453): outside check,
for variants other than ANTI and LOSERS, the CAPTURES and QUIETS move lists
together form, as a multiset, exactly the NON_EVASIONS move list, provided
the three targets partition as bitboards and the pawn `enemies` masks agree. -/
theorem generate_all_partition (v : Variant) (us : Color) (pos : Position)
    {tC tQ tNE : Bitboard}
    (hvA : v ≠ Variant.ANTI) (hvL : v ≠ Variant.LOSERS) (hchk : pos.checkers = 0)
    (hQ : PW tQ (bcompl pos.allPieces))
    (hU : ∀ i, i < 64 → (tC.testBit i || tQ.testBit i) = tNE.testBit i)
    (hD : ∀ i, i < 64 → ¬(tC.testBit i = true ∧ tQ.testBit i = true))
    (hEC : PW (pawnEnemies v us GenType.CAPTURES pos tC)
      (pawnEnemies v us GenType.NON_EVASIONS pos tNE))
    (hEQ : PW (pawnEnemies v us GenType.QUIETS pos tQ)
      (pawnEnemies v us GenType.NON_EVASIONS pos tNE))
    (hXorEq : v = Variant.CRAZYHOUSE → tNE ^^^ pos.piecesC us.opp = tQ) :
    (↑(generate_all v us GenType.CAPTURES pos tC) : Multiset Move)
      + ↑(generate_all v us GenType.QUIETS pos tQ)
      = ↑(generate_all v us GenType.NON_EVASIONS pos tNE) := by
  unfold generate_all
  dsimp only
  refine concat4_partition ?_ ?_ ?_ ?_
  · -- pawn and piece emitters
    by_cases hsp : v = Variant.CRAZYHOUSE ∧ pos.isPlacement ∧ pos.countInHandAll us > 0
    · simp only [if_pos hsp]; rfl
    · simp only [if_neg hsp]
      refine concat5_partition (gpm_partition hvA hvL hchk hQ hEC hEQ)
        (generate_moves_partition _ pos us hU hD) (generate_moves_partition _ pos us hU hD)
        (generate_moves_partition _ pos us hU hD) (generate_moves_partition _ pos us hU hD)
  · -- crazyhouse drops
    by_cases hdc : v = Variant.CRAZYHOUSE ∧ pos.countInHandAll us > 0
    · rw [if_neg (show ¬(v = Variant.CRAZYHOUSE ∧ GenType.CAPTURES ≠ GenType.CAPTURES ∧
          pos.countInHandAll us > 0) from fun h => h.2.1 rfl),
        if_pos (show v = Variant.CRAZYHOUSE ∧ GenType.QUIETS ≠ GenType.CAPTURES ∧
          pos.countInHandAll us > 0 from ⟨hdc.1, by decide, hdc.2⟩),
        if_pos (show v = Variant.CRAZYHOUSE ∧ GenType.NON_EVASIONS ≠ GenType.CAPTURES ∧
          pos.countInHandAll us > 0 from ⟨hdc.1, by decide, hdc.2⟩)]
      simp only [if_neg (show ¬(GenType.QUIETS = GenType.EVASIONS) from by decide),
        if_neg (show ¬(GenType.QUIETS = GenType.NON_EVASIONS) from by decide),
        if_neg (show ¬(GenType.NON_EVASIONS = GenType.EVASIONS) from by decide),
        if_pos (show GenType.NON_EVASIONS = GenType.NON_EVASIONS from rfl)]
      rw [hXorEq hdc.1]
      simp
    · rw [if_neg (show ¬(v = Variant.CRAZYHOUSE ∧ GenType.CAPTURES ≠ GenType.CAPTURES ∧
          pos.countInHandAll us > 0) from fun h => hdc ⟨h.1, h.2.2⟩),
        if_neg (show ¬(v = Variant.CRAZYHOUSE ∧ GenType.QUIETS ≠ GenType.CAPTURES ∧
          pos.countInHandAll us > 0) from fun h => hdc ⟨h.1, h.2.2⟩),
        if_neg (show ¬(v = Variant.CRAZYHOUSE ∧ GenType.NON_EVASIONS ≠ GenType.CAPTURES ∧
          pos.countInHandAll us > 0) from fun h => hdc ⟨h.1, h.2.2⟩)]
      rfl
  · -- king section
    by_cases hhr : v = Variant.HORDE ∧ pos.isHordeColor us
    · simp only [if_pos hhr]; rfl
    · simp only [if_neg hhr, if_neg hvA]
      by_cases hvE : v = Variant.EXTINCTION
      · simp only [if_pos hvE]
        exact generate_king_moves_partition pos us hU hD
      · simp only [if_neg hvE]
        by_cases hvT : v = Variant.TWOKINGS
        · simp only [if_pos hvT,
            if_pos (show GenType.CAPTURES ≠ GenType.EVASIONS from by decide),
            if_pos (show GenType.QUIETS ≠ GenType.EVASIONS from by decide),
            if_pos (show GenType.NON_EVASIONS ≠ GenType.EVASIONS from by decide)]
          exact generate_king_moves_partition pos us hU hD
        · simp only [if_neg hvT,
            if_pos (show GenType.CAPTURES ≠ GenType.QUIET_CHECKS ∧
              GenType.CAPTURES ≠ GenType.EVASIONS from by decide),
            if_pos (show GenType.QUIETS ≠ GenType.QUIET_CHECKS ∧
              GenType.QUIETS ≠ GenType.EVASIONS from by decide),
            if_pos (show GenType.NON_EVASIONS ≠ GenType.QUIET_CHECKS ∧
              GenType.NON_EVASIONS ≠ GenType.EVASIONS from by decide)]
          by_cases hvR : v = Variant.RACE
          · rw [if_neg (show ¬(v = Variant.RACE ∧ GenType.CAPTURES = GenType.QUIETS) from
                fun h => by cases h.2),
              if_pos (show v = Variant.RACE ∧ True from ⟨hvR, trivial⟩),
              if_neg (show ¬(v = Variant.RACE ∧ GenType.QUIETS = GenType.CAPTURES) from
                fun h => by cases h.2),
              if_pos (show v = Variant.RACE ∧ True from ⟨hvR, trivial⟩),
              if_neg (show ¬(v = Variant.RACE ∧ GenType.NON_EVASIONS = GenType.CAPTURES) from
                fun h => by cases h.2),
              if_neg (show ¬(v = Variant.RACE ∧ GenType.NON_EVASIONS = GenType.QUIETS) from
                fun h => by cases h.2)]
            exact sqListM_union_map _
              (fun i hi => by
                have hq := hQ i hi
                have hu := hU i hi
                simp only [Nat.testBit_or, Nat.testBit_and, testBit_bcompl,
                  decide_eq_true hi, Bool.and_true] at hq ⊢
                rw [← hu]
                cases (pos.attacksFrom PieceType.KING (pos.kingSquare us)).testBit i <;>
                  cases htc : tC.testBit i <;> cases htq : tQ.testBit i <;>
                  cases hsp2 : (pos.passedPawnSpan Color.WHITE (pos.kingSquare us)).testBit i <;>
                  cases hocc : pos.allPieces.testBit i <;> simp_all)
              (fun i hi h => by
                have hq := hQ i hi
                have hd := hD i hi
                simp only [Nat.testBit_or, Nat.testBit_and, testBit_bcompl,
                  decide_eq_true hi, Bool.and_true] at hq h
                cases htc : tC.testBit i <;> cases htq : tQ.testBit i <;>
                  cases hsp2 : (pos.passedPawnSpan Color.WHITE (pos.kingSquare us)).testBit i <;>
                  cases hocc : pos.allPieces.testBit i <;> simp_all)
          · rw [if_neg (show ¬(v = Variant.RACE ∧ GenType.CAPTURES = GenType.QUIETS) from
                fun h => hvR h.1),
              if_neg (show ¬(v = Variant.RACE ∧ True) from fun h => hvR h.1),
              if_neg (show ¬(v = Variant.RACE ∧ GenType.QUIETS = GenType.CAPTURES) from
                fun h => hvR h.1),
              if_neg (show ¬(v = Variant.RACE ∧ True) from fun h => hvR h.1),
              if_neg (show ¬(v = Variant.RACE ∧ GenType.NON_EVASIONS = GenType.CAPTURES) from
                fun h => hvR h.1),
              if_neg (show ¬(v = Variant.RACE ∧ GenType.NON_EVASIONS = GenType.QUIETS) from
                fun h => hvR h.1)]
            exact sqListM_union_map _
              (fun i hi => by
                rw [Nat.testBit_and, Nat.testBit_and, Nat.testBit_and, ← hU i hi]
                cases (pos.attacksFrom PieceType.KING (pos.kingSquare us)).testBit i <;>
                  cases tC.testBit i <;> cases tQ.testBit i <;> rfl)
              (fun i hi h => hD i hi ⟨testBit_of_land_right h.1, testBit_of_land_right h.2⟩)
  · -- castling section
    by_cases hoc : (v = Variant.HORDE ∧ pos.isHordeColor us) ∨ (v = Variant.ANTI ∧ pos.canCapture)
    · simp only [if_pos hoc]; rfl
    · simp only [if_neg hoc,
        if_pos (show GenType.CAPTURES ≠ GenType.QUIET_CHECKS ∧
          GenType.CAPTURES ≠ GenType.EVASIONS from by decide),
        if_pos (show GenType.QUIETS ≠ GenType.QUIET_CHECKS ∧
          GenType.QUIETS ≠ GenType.EVASIONS from by decide),
        if_pos (show GenType.NON_EVASIONS ≠ GenType.QUIET_CHECKS ∧
          GenType.NON_EVASIONS ≠ GenType.EVASIONS from by decide)]
      by_cases hlc : v = Variant.LOSERS ∧ pos.canCaptureLosers
      · exact absurd hlc.1 hvL
      · simp only [if_neg hlc]
        rw [if_neg (show ¬(GenType.CAPTURES ≠ GenType.CAPTURES ∧
            (pos.canCastleOO us ∨ pos.canCastleOOO us)) from fun h => h.1 rfl)]
        by_cases hcc : pos.canCastleOO us ∨ pos.canCastleOOO us
        · rw [if_pos (show GenType.QUIETS ≠ GenType.CAPTURES ∧
              (pos.canCastleOO us ∨ pos.canCastleOOO us) from ⟨by decide, hcc⟩),
            if_pos (show GenType.NON_EVASIONS ≠ GenType.CAPTURES ∧
              (pos.canCastleOO us ∨ pos.canCastleOOO us) from ⟨by decide, hcc⟩)]
          simp
        · rw [if_neg (show ¬(GenType.QUIETS ≠ GenType.CAPTURES ∧
              (pos.canCastleOO us ∨ pos.canCastleOOO us)) from fun h => hcc h.2),
            if_neg (show ¬(GenType.NON_EVASIONS ≠ GenType.CAPTURES ∧
              (pos.canCastleOO us ∨ pos.canCastleOOO us)) from fun h => hcc h.2)]
          rfl

/-- Bits at or above 64 of a value below `2 ^ 64` are clear. -/
theorem testBit_false_of_ge64 {x : Nat} (hx : x < 2 ^ 64) {i : Nat} (hi : ¬ i < 64) :
    x.testBit i = false :=
  Nat.testBit_eq_false_of_lt
    (lt_of_lt_of_le hx (Nat.pow_le_pow_right (by norm_num) (le_of_not_lt hi)))

/-- For the standard mode targets (enemy pieces / empty squares /
non-own squares), the CAPTURES and QUIETS targets partition the
NON_EVASIONS target, given that own and enemy pieces partition the
occupancy. -/
theorem union_std {own e occ : Nat}
    (h1 : ∀ i, i < 64 → (own.testBit i || e.testBit i) = occ.testBit i)
    (h2 : ∀ i, i < 64 → ¬(own.testBit i = true ∧ e.testBit i = true)) :
    ∀ i, i < 64 → (e.testBit i || (bcompl occ).testBit i) = (bcompl own).testBit i := by
  intro i hi
  have ho := h1 i hi
  have hd := h2 i hi
  rw [testBit_bcompl, testBit_bcompl, decide_eq_true hi, Bool.and_true, Bool.and_true]
  cases hw : own.testBit i <;> cases he : e.testBit i <;> simp_all

/-- The standard CAPTURES and QUIETS targets are disjoint. -/
theorem disj_std {own e occ : Nat}
    (h1 : ∀ i, i < 64 → (own.testBit i || e.testBit i) = occ.testBit i) :
    ∀ i, i < 64 → ¬(e.testBit i = true ∧ (bcompl occ).testBit i = true) := by
  intro i hi h
  have ho := h1 i hi
  rw [testBit_bcompl, decide_eq_true hi, Bool.and_true] at h
  cases hw : own.testBit i <;> simp_all

/-- The crazyhouse drop identity: xoring the enemy pieces out of the
NON_EVASIONS target (movegen.cpp line 365) yields exactly the QUIETS
target, the empty squares. -/
theorem xor_bcompl_eq {own e occ : Nat}
    (h1 : ∀ i, i < 64 → (own.testBit i || e.testBit i) = occ.testBit i)
    (h2 : ∀ i, i < 64 → ¬(own.testBit i = true ∧ e.testBit i = true))
    (hb : e < 2 ^ 64) :
    bcompl own ^^^ e = bcompl occ := by
  apply Nat.eq_of_testBit_eq
  intro i
  by_cases hi : i < 64
  · have ho := h1 i hi
    have hd := h2 i hi
    rw [Nat.testBit_xor, testBit_bcompl, testBit_bcompl, decide_eq_true hi,
      Bool.and_true, Bool.and_true]
    cases hw : own.testBit i <;> cases he : e.testBit i <;> simp_all
  · rw [Nat.testBit_xor, testBit_bcompl, testBit_bcompl, testBit_false_of_ge64 hb hi,
      decide_eq_false hi]
    simp

/-- Under ATOMIC the masked CAPTURES target (enemy pieces away from the
own king's adjacency, movegen.cpp lines 512-514) and the QUIETS target
partition the masked NON_EVASIONS target. -/
theorem atomic_union {own e occ adj : Nat}
    (h1 : ∀ i, i < 64 → (own.testBit i || e.testBit i) = occ.testBit i)
    (h2 : ∀ i, i < 64 → ¬(own.testBit i = true ∧ e.testBit i = true)) :
    ∀ i, i < 64 →
      ((e &&& bcompl (e &&& adj)).testBit i || (bcompl occ).testBit i)
        = (bcompl own &&& bcompl (e &&& adj)).testBit i := by
  intro i hi
  have ho := h1 i hi
  have hd := h2 i hi
  simp only [Nat.testBit_and, testBit_bcompl, decide_eq_true hi, Bool.and_true]
  cases hw : own.testBit i <;> cases he : e.testBit i <;>
    cases ha : adj.testBit i <;> simp_all

/-- The ATOMIC CAPTURES and QUIETS targets are disjoint. -/
theorem atomic_disj {own e occ adj : Nat}
    (h1 : ∀ i, i < 64 → (own.testBit i || e.testBit i) = occ.testBit i) :
    ∀ i, i < 64 →
      ¬((e &&& bcompl (e &&& adj)).testBit i = true ∧ (bcompl occ).testBit i = true) := by
  intro i hi h
  have ho := h1 i hi
  simp only [Nat.testBit_and, testBit_bcompl, decide_eq_true hi, Bool.and_true] at h
  cases hw : own.testBit i <;> cases he : e.testBit i <;> simp_all

/-- The ATOMIC pawn `enemies` mask of CAPTURES agrees with that of
NON_EVASIONS on the board, given own/enemy disjointness. -/
theorem atomic_enem_capt {own e adj : Nat}
    (h2 : ∀ i, i < 64 → ¬(own.testBit i = true ∧ e.testBit i = true)) :
    PW ((e &&& bcompl (e &&& adj)) &&& (e &&& bcompl (e &&& adj)))
      (e &&& (bcompl own &&& bcompl (e &&& adj))) := by
  intro i hi
  have hd := h2 i hi
  simp only [Nat.testBit_and, testBit_bcompl, decide_eq_true hi, Bool.and_true]
  cases hw : own.testBit i <;> cases he : e.testBit i <;>
    cases ha : adj.testBit i <;> simp_all

/-- The ATOMIC pawn `enemies` mask of QUIETS agrees with that of
NON_EVASIONS on the board, given own/enemy disjointness. -/
theorem atomic_enem_quiets {own e adj : Nat}
    (h2 : ∀ i, i < 64 → ¬(own.testBit i = true ∧ e.testBit i = true)) :
    PW (e &&& bcompl adj)
      (e &&& (bcompl own &&& bcompl (e &&& adj))) := by
  intro i hi
  have hd := h2 i hi
  simp only [Nat.testBit_and, testBit_bcompl, decide_eq_true hi, Bool.and_true]
  cases hw : own.testBit i <;> cases he : e.testBit i <;>
    cases ha : adj.testBit i <;> simp_all

set_option maxHeartbeats 1600000 in
/-- C1: for every position whose side-to-move and enemy piece sets
partition the occupancy, that is not in check, and whose variant is
neither ANTI nor LOSERS, the multiset union of the moves emitted by
generate(CAPTURES) and generate(QUIETS) equals the moves emitted by
generate(NON_EVASIONS). (Under ANTI and LOSERS the claim fails: with a
capture available, `make_promotions` emits the full promotion list in
both CAPTURES and QUIETS, duplicating promotions.) -/
theorem partition_captures_quiets (pos : Position)
    (hvA : pos.variant ≠ Variant.ANTI) (hvL : pos.variant ≠ Variant.LOSERS)
    (hchk : pos.checkers = 0)
    (h1 : ∀ i, i < 64 → ((pos.piecesC pos.sideToMove).testBit i ||
      (pos.piecesC pos.sideToMove.opp).testBit i) = pos.allPieces.testBit i)
    (h2 : ∀ i, i < 64 → ¬((pos.piecesC pos.sideToMove).testBit i = true ∧
      (pos.piecesC pos.sideToMove.opp).testBit i = true))
    (hb : pos.piecesC pos.sideToMove.opp < 2 ^ 64) :
    (↑(generate_main GenType.CAPTURES pos) : Multiset Move)
      + ↑(generate_main GenType.QUIETS pos)
      = ↑(generate_main GenType.NON_EVASIONS pos) := by
  unfold generate_main
  dsimp only
  cases hv : pos.variant
  case ANTI => exact absurd hv hvA
  case LOSERS => exact absurd hv hvL
  case ATOMIC =>
    exact generate_all_partition _ pos.sideToMove pos (by decide) (by decide) hchk
      (PW.refl _) (atomic_union h1 h2) (atomic_disj h1)
      (by rw [pawnEnemies_atomic_capt, pawnEnemies_atomic_nonev]
          exact atomic_enem_capt h2)
      (by rw [pawnEnemies_atomic_quiets, pawnEnemies_atomic_nonev]
          exact atomic_enem_quiets h2)
      (fun hcz => by cases hcz)
  case CRAZYHOUSE =>
    exact generate_all_partition _ pos.sideToMove pos (by decide) (by decide) hchk
      (PW.refl _) (union_std h1 h2) (disj_std h1)
      (by rw [pawnEnemies_capt (show Variant.CRAZYHOUSE ≠ Variant.ATOMIC from by decide),
            pawnEnemies_nonev (show Variant.CRAZYHOUSE ≠ Variant.ATOMIC from by decide)]
          exact PW.refl _)
      (by rw [pawnEnemies_quiets (show Variant.CRAZYHOUSE ≠ Variant.ATOMIC from by decide),
            pawnEnemies_nonev (show Variant.CRAZYHOUSE ≠ Variant.ATOMIC from by decide)]
          exact PW.refl _)
      (fun _ => xor_bcompl_eq h1 h2 hb)
  case CHESS =>
    exact generate_all_partition _ pos.sideToMove pos (by decide) (by decide) hchk
      (PW.refl _) (union_std h1 h2) (disj_std h1)
      (by rw [pawnEnemies_capt (show Variant.CHESS ≠ Variant.ATOMIC from by decide),
            pawnEnemies_nonev (show Variant.CHESS ≠ Variant.ATOMIC from by decide)]
          exact PW.refl _)
      (by rw [pawnEnemies_quiets (show Variant.CHESS ≠ Variant.ATOMIC from by decide),
            pawnEnemies_nonev (show Variant.CHESS ≠ Variant.ATOMIC from by decide)]
          exact PW.refl _)
      (fun hcz => by cases hcz)
  case EXTINCTION =>
    exact generate_all_partition _ pos.sideToMove pos (by decide) (by decide) hchk
      (PW.refl _) (union_std h1 h2) (disj_std h1)
      (by rw [pawnEnemies_capt (show Variant.EXTINCTION ≠ Variant.ATOMIC from by decide),
            pawnEnemies_nonev (show Variant.EXTINCTION ≠ Variant.ATOMIC from by decide)]
          exact PW.refl _)
      (by rw [pawnEnemies_quiets (show Variant.EXTINCTION ≠ Variant.ATOMIC from by decide),
            pawnEnemies_nonev (show Variant.EXTINCTION ≠ Variant.ATOMIC from by decide)]
          exact PW.refl _)
      (fun hcz => by cases hcz)
  case GRID =>
    exact generate_all_partition _ pos.sideToMove pos (by decide) (by decide) hchk
      (PW.refl _) (union_std h1 h2) (disj_std h1)
      (by rw [pawnEnemies_capt (show Variant.GRID ≠ Variant.ATOMIC from by decide),
            pawnEnemies_nonev (show Variant.GRID ≠ Variant.ATOMIC from by decide)]
          exact PW.refl _)
      (by rw [pawnEnemies_quiets (show Variant.GRID ≠ Variant.ATOMIC from by decide),
            pawnEnemies_nonev (show Variant.GRID ≠ Variant.ATOMIC from by decide)]
          exact PW.refl _)
      (fun hcz => by cases hcz)
  case HORDE =>
    exact generate_all_partition _ pos.sideToMove pos (by decide) (by decide) hchk
      (PW.refl _) (union_std h1 h2) (disj_std h1)
      (by rw [pawnEnemies_capt (show Variant.HORDE ≠ Variant.ATOMIC from by decide),
            pawnEnemies_nonev (show Variant.HORDE ≠ Variant.ATOMIC from by decide)]
          exact PW.refl _)
      (by rw [pawnEnemies_quiets (show Variant.HORDE ≠ Variant.ATOMIC from by decide),
            pawnEnemies_nonev (show Variant.HORDE ≠ Variant.ATOMIC from by decide)]
          exact PW.refl _)
      (fun hcz => by cases hcz)
  case RACE =>
    exact generate_all_partition _ pos.sideToMove pos (by decide) (by decide) hchk
      (PW.refl _) (union_std h1 h2) (disj_std h1)
      (by rw [pawnEnemies_capt (show Variant.RACE ≠ Variant.ATOMIC from by decide),
            pawnEnemies_nonev (show Variant.RACE ≠ Variant.ATOMIC from by decide)]
          exact PW.refl _)
      (by rw [pawnEnemies_quiets (show Variant.RACE ≠ Variant.ATOMIC from by decide),
            pawnEnemies_nonev (show Variant.RACE ≠ Variant.ATOMIC from by decide)]
          exact PW.refl _)
      (fun hcz => by cases hcz)
  case TWOKINGS =>
    exact generate_all_partition _ pos.sideToMove pos (by decide) (by decide) hchk
      (PW.refl _) (union_std h1 h2) (disj_std h1)
      (by rw [pawnEnemies_capt (show Variant.TWOKINGS ≠ Variant.ATOMIC from by decide),
            pawnEnemies_nonev (show Variant.TWOKINGS ≠ Variant.ATOMIC from by decide)]
          exact PW.refl _)
      (by rw [pawnEnemies_quiets (show Variant.TWOKINGS ≠ Variant.ATOMIC from by decide),
            pawnEnemies_nonev (show Variant.TWOKINGS ≠ Variant.ATOMIC from by decide)]
          exact PW.refl _)
      (fun hcz => by cases hcz)

/-- C1, counterexample: under ANTI with a capture available (position
`1r2k3/P7/8/8/8/8/8/4K3 w - -` seen from White with a black rook on b8),
the position is not in check yet CAPTURES and QUIETS both emit all five
promotion moves of the a7 pawn, so their multiset union exceeds
NON_EVASIONS. -/
theorem partition_anti_counterexample :
    posAnti.checkers = 0 ∧
    ¬((↑(generate_main GenType.CAPTURES posAnti) : Multiset Move)
      + ↑(generate_main GenType.QUIETS posAnti)
      = ↑(generate_main GenType.NON_EVASIONS posAnti)) := by decide

/-- C1, witness: the partition instantiated at the concrete promotion
position `4k3/P7/8/8/8/8/8/4K3 w - -`. -/
theorem partition_captures_quiets_witness :
    (↑(generate_main GenType.CAPTURES posPromo) : Multiset Move)
      + ↑(generate_main GenType.QUIETS posPromo)
      = ↑(generate_main GenType.NON_EVASIONS posPromo) :=
  partition_captures_quiets posPromo (by decide) (by decide) (by decide)
    (by decide) (by decide) (by decide)


end Movegen
